import Mathlib

/-!
Verification of the coaster repository against its specification.

The development embeds, as executable Lean definitions, the logger's
redaction and stack-dump machinery (`src/coaster/logger.py`) and -- where
the repository ships only the tests -- the naming and compound-identifier
contracts described by the specification.  Theorems at the end of the file
settle the individual claims.
-/

/- ===== Character helpers and the card-number regular expression =====

The source defines (logger.py lines 29-30)

    _card_re = re.compile(r'\b(?:\d[ -]*?){13,16}\b')

The functions below implement the backtracking search of this one pattern:
a word boundary, 13 to 16 repetitions (greedy) of a digit followed by a
lazy run of spaces or hyphens, and a final word boundary.  Word characters
are modelled as ASCII alphanumerics plus underscore. -/

/-- Word characters for the regex word-boundary test: ASCII letters, digits and the underscore. -/
def isWordChar (c : Char) : Bool := c.isAlphanum || c == '_'

/-- Separator characters matched between digits by the card-number pattern. -/
def isCardSep (c : Char) : Bool := c == ' ' || c == '-'

/-- Word-boundary test: a boundary lies where exactly one side is a word character. -/
def atBoundary (prev : Option Char) (rest : List Char) : Bool :=
  let pw := match prev with
    | none => false
    | some c => isWordChar c
  let nw := match rest with
    | [] => false
    | c :: _ => isWordChar c
  pw != nw

mutual

/-- Backtracking continuation after `reps` repetitions of the card pattern unit: greedily try one more unit, then try the closing word boundary once 13 repetitions are reached. -/
def cardTryTail : Nat → Nat → Char → List Char → Option (Char × List Char)
  | 0, _, _, _ => none
  | fuel + 1, reps, prev, rest =>
    let unitTry : Option (Char × List Char) :=
      if reps < 16 then
        match rest with
        | c :: rest2 => if c.isDigit then cardAfterDigit fuel (reps + 1) c rest2 else none
        | [] => none
      else none
    match unitTry with
    | some r => some r
    | none => if 13 ≤ reps && atBoundary (some prev) rest then some (prev, rest) else none

/-- Lazy separator run after a digit: first try to continue without consuming a separator, then consume one space or hyphen and retry. -/
def cardAfterDigit : Nat → Nat → Char → List Char → Option (Char × List Char)
  | 0, _, _, _ => none
  | fuel + 1, reps, prev, rest =>
    match cardTryTail fuel reps prev rest with
    | some r => some r
    | none =>
      match rest with
      | c :: rest2 => if isCardSep c then cardAfterDigit fuel reps c rest2 else none
      | [] => none

end

/-- Match attempt of the card-number pattern at one position; `prev` is the character just before that position.  On success, returns the last matched character and the remainder of the input. -/
def cardMatchAt (prev : Option Char) (rest : List Char) : Option (Char × List Char) :=
  match rest with
  | c :: rest2 =>
    if c.isDigit && !(match prev with | none => false | some p => isWordChar p) then
      cardAfterDigit (2 * rest2.length + 8) 1 c rest2
    else none
  | [] => none

/-- Left-to-right scan of `_card_re.sub`: each leftmost match is replaced by the text [Filtered] and scanning resumes after the match. -/
def cardScan : Nat → Option Char → List Char → List Char
  | 0, _, rest => rest
  | fuel + 1, prev, rest =>
    match cardMatchAt prev rest with
    | some (lastc, rest2) => "[Filtered]".data ++ cardScan fuel (some lastc) rest2
    | none =>
      match rest with
      | [] => []
      | c :: rest2 => c :: cardScan fuel (some c) rest2

/-- Model of `_card_re.sub('[Filtered]', value)` (logger.py lines 29-30 and 93-94). -/
def cardSub (s : String) : String :=
  String.mk (cardScan (s.data.length + 1) none s.data)

/-- Scan for `_card_re.search`: does the card-number pattern match anywhere. -/
def cardFound : Nat → Option Char → List Char → Bool
  | 0, _, _ => false
  | fuel + 1, prev, rest =>
    match cardMatchAt prev rest with
    | some _ => true
    | none =>
      match rest with
      | [] => false
      | c :: rest2 => cardFound fuel (some c) rest2

/-- Model of `_card_re.search(value)` being successful. -/
def cardSearch (s : String) : Bool := cardFound (s.data.length + 1) none s.data

/- ===== The sensitive-keyword filter ===== -/

/-- Keyword alternatives of `_filter_re` (logger.py lines 33-52). -/
def filterKeywords : List String :=
  ["password", "secret", "passwd", "api_key", "apikey", "access_token",
   "auth_token", "_token", "token_", "credentials", "mysql_pwd",
   "stripetoken", "cardnumber", "email", "phone"]

/-- Substring occurrence test over character lists. -/
def containsSub (pat : List Char) : List Char → Bool
  | [] => pat.isEmpty
  | c :: rest => pat.isPrefixOf (c :: rest) || containsSub pat rest

/-- Model of `_filter_re.search(key)` being successful: the pattern is a case-insensitive alternation of the fifteen keywords, so it matches exactly when some keyword occurs in the lowercased key. -/
def filterMatch (k : String) : Bool :=
  filterKeywords.any (fun w => containsSub w.data (k.data.map Char.toLower))

/- ===== Python values, repr and str ===== -/

/-- Python runtime values as far as the logger inspects them: strings, integers, plain objects (class name plus an identity number standing in for the address), objects whose `__repr__` raises, and the module's two indicator classes (logger.py lines 59-86). -/
inductive PyValue where
  | str : String → PyValue
  | int : Int → PyValue
  | obj : String → Nat → PyValue
  | objBadRepr : String → Nat → PyValue
  | filteredValueIndicator : PyValue
  | repeatValueIndicator : String → PyValue
deriving DecidableEq

/-- Digit expansion of a natural number, most significant digit first, with explicit fuel. -/
def digitsAux (B : Nat) (digitC : Nat → Char) : Nat → Nat → List Char
  | 0, _ => []
  | fuel + 1, n => if n < B then [digitC n] else digitsAux B digitC fuel (n / B) ++ [digitC (n % B)]

/-- Decimal digit character. -/
def decChar (n : Nat) : Char := Char.ofNat (48 + n)

/-- Decimal rendering of a natural number. -/
def natToDec (n : Nat) : String := String.mk (digitsAux 10 decChar (n + 1) n)

/-- Python `str` and `repr` of an integer. -/
def intToDec (i : Int) : String :=
  if i < 0 then "-" ++ natToDec i.natAbs else natToDec i.natAbs

/-- Single-quote character. -/
def squote : Char := Char.ofNat 39

/-- Escape of one character inside a Python string repr with quote character `q`. -/
def pyReprChar (q c : Char) : List Char :=
  if c == '\\' then ['\\', '\\']
  else if c == q then ['\\', q]
  else if c == '\n' then ['\\', 'n']
  else if c == '\r' then ['\\', 'r']
  else if c == '\t' then ['\\', 't']
  else [c]

/-- Python repr of a string over printable characters: single quotes, or double quotes when the string contains a single quote but no double quote. -/
def pyReprStr (s : String) : String :=
  let q := if s.data.contains squote && !(s.data.contains '"') then '"' else squote
  String.mk (q :: ((s.data.map (pyReprChar q)).flatten ++ [q]))

/-- Python `repr` of a value; the `Except` result models an exception raised by a failing `__repr__`.  The two indicator reprs follow logger.py lines 59-86. -/
def renderRepr : PyValue → Except Unit String
  | .str s => .ok (pyReprStr s)
  | .int i => .ok (intToDec i)
  | .obj cls oid => .ok ("<" ++ cls ++ " object at " ++ natToDec oid ++ ">")
  | .objBadRepr _ _ => .error ()
  | .filteredValueIndicator => .ok "[Filtered]"
  | .repeatValueIndicator k => .ok ("<same as prior " ++ pyReprStr k ++ ">")

/-- Python `str` of a value; the string form referred to by the card-number claim. -/
def renderStr : PyValue → Except Unit String
  | .str s => .ok s
  | .int i => .ok (intToDec i)
  | .obj cls oid => .ok ("<" ++ cls ++ " object at " ++ natToDec oid ++ ">")
  | .objBadRepr _ _ => .error ()
  | .filteredValueIndicator => .ok "[Filtered]"
  | .repeatValueIndicator k => .ok ("<same as prior " ++ pyReprStr k ++ ">")

/-- Model of the guard `isinstance(key, str) and _filter_re.search(key)` (logger.py line 91). -/
def keyMatches (key : PyValue) : Bool :=
  match key with
  | .str k => filterMatch k
  | _ => false

/-- Model of `filtered_value(key, value)` (logger.py lines 89-95): a string key matching the keyword pattern yields the filtered-value indicator; otherwise a string value has card-number runs substituted; every other value passes through unchanged. -/
def filtered_value (key value : PyValue) : PyValue :=
  if keyMatches key then
    .filteredValueIndicator
  else
    match value with
    | .str s => .str (cardSub s)
    | _ => value

/- ===== The stack-dump formatter ===== -/

/-- One stack frame as `formatException` reads it: code name, filename, current line and the local variable bindings; each binding carries the Python object identity of its value. -/
structure PyFrame where
  name : String
  filename : String
  lineno : Nat
  locals : List (String × Nat × PyValue)
deriving DecidableEq

/-- Buffer state threaded through the frame dump: the identity cache `value_cache`, the number of write attempts so far, and the chunks written to the output buffer in order.  The dump loop of the source contains no assignment to the lock or to `Config.__repr__`, so those flags live only in the surrounding `FmtState`. -/
structure DumpState where
  cache : List (Nat × String)
  wcount : Nat
  out : List String
deriving DecidableEq

/-- State of one `formatException` call: whether `Config.__repr__` is currently monkey-patched, whether the formatter's lock is held, and the buffer state. -/
structure FmtState where
  configPatched : Bool
  lockHeld : Bool
  dump : DumpState
deriving DecidableEq

/-- Initial formatter state. -/
def initFmtState : FmtState := ⟨false, false, ⟨[], 0, []⟩⟩

/-- Write oracle: `wf n = true` means the n-th write to the output buffer raises.  Writes to a file-like object may raise in Python; the oracle makes exits caused by an exception partway through the frame dump expressible. -/
abbrev WriteOracle := Nat → Bool

/-- Oracle under which every write succeeds (the behaviour of an untroubled `StringIO`). -/
def writesOk : WriteOracle := fun _ => false

/-- One write attempt: on success the chunk is appended, on failure an exception is signalled; either way the attempt is counted. -/
def emitChunk (wf : WriteOracle) (chunk : String) (st : DumpState) : DumpState × Bool :=
  if wf st.wcount then
    ({ st with wcount := st.wcount + 1 }, false)
  else
    ({ st with wcount := st.wcount + 1, out := st.out ++ [chunk] }, true)

/-- Right alignment to 20 columns, as the format spec in the label write. -/
def rightAlign20 (s : String) : String :=
  String.mk (List.replicate (20 - s.length) ' ') ++ s

/-- Processing of one local variable (logger.py lines 167-179): repeat detection against the identity cache, the label write, and the guarded value write whose bare except substitutes the placeholder. -/
def processLocal (wf : WriteOracle) (fname : String) (st : DumpState) (l : String × Nat × PyValue) : DumpState × Bool :=
  let attr := l.1
  let idv := l.2.1
  let value := l.2.2
  let (value2, st1) :=
    match st.cache.lookup idv with
    | some k => (PyValue.repeatValueIndicator k, st)
    | none => (value, { st with cache := st.cache ++ [(idv, fname ++ "." ++ attr)] })
  let (st2, ok) := emitChunk wf ("\t" ++ rightAlign20 attr ++ " =  ") st1
  if !ok then (st2, false)
  else
    match renderRepr (filtered_value (.str attr) value2) with
    | .ok r =>
      let (st3, ok2) := emitChunk wf (r ++ "\n") st2
      if ok2 then (st3, true)
      else emitChunk wf "<ERROR WHILE PRINTING VALUE>\n" st3
    | .error _ => emitChunk wf "<ERROR WHILE PRINTING VALUE>\n" st2

/-- Left-to-right processing of a frame's locals, stopped by the first uncaught exception. -/
def processLocals (wf : WriteOracle) (fname : String) : DumpState → List (String × Nat × PyValue) → DumpState × Bool
  | st, [] => (st, true)
  | st, l :: ls =>
    let (st2, ok) := processLocal wf fname st l
    if ok then processLocals wf fname st2 ls else (st2, false)

/-- Processing of one stack frame (logger.py lines 160-179): the frame separator, the frame header line and the locals. -/
def processFrame (wf : WriteOracle) (st : DumpState) (f : PyFrame) : DumpState × Bool :=
  let (st1, ok) := emitChunk wf "\n----\n\n" st
  if !ok then (st1, false)
  else
    let (st2, ok2) := emitChunk wf ("Frame " ++ f.name ++ " in " ++ f.filename ++ " at line " ++ natToDec f.lineno ++ "\n") st1
    if !ok2 then (st2, false)
    else processLocals wf f.name st2 f.locals

/-- Processing of the collected stack frames in order. -/
def processFrames (wf : WriteOracle) : DumpState → List PyFrame → DumpState × Bool
  | st, [] => (st, true)
  | st, f :: fs =>
    let (st2, ok) := processFrame wf st f
    if ok then processFrames wf st2 fs else (st2, false)

/-- The lock-guarded dump (logger.py lines 147-182): the lock is acquired, `Config.__repr__` is monkey-patched, the section header is written and the frames are dumped.  The `with` statement releases the lock on every exit, but the assignment restoring the original `__repr__` (line 182) runs only when the dump completes without an uncaught exception. -/
def lockBlock (wf : WriteOracle) (frames : List PyFrame) (st : FmtState) : FmtState × Bool :=
  let stA : FmtState := { st with lockHeld := true, configPatched := true }
  let (d1, ok) := emitChunk wf "\n----------\n\n" stA.dump
  if !ok then ({ stA with dump := d1, lockHeld := false }, false)
  else
    let (d2, ok2) := emitChunk wf "Stack frames (most recent call first):\n" d1
    if !ok2 then ({ stA with dump := d2, lockHeld := false }, false)
    else
      let (d3, ok3) := processFrames wf d2 frames
      if ok3 then ({ stA with dump := d3, configPatched := false, lockHeld := false }, true)
      else ({ stA with dump := d3, lockHeld := false }, false)

/-- Model of `LocalVarFormatter.formatException` (logger.py lines 131-236) as far as the frame dump goes: the printed traceback text is written first, then the lock-guarded dump runs.  The request, session, app-context and auth sections are skipped silently outside a request, as in the source. -/
def formatExceptionM (wf : WriteOracle) (tbText : String) (frames : List PyFrame) : FmtState × Bool :=
  let (d0, ok) := emitChunk wf tbText initFmtState.dump
  if !ok then ({ initFmtState with dump := d0 }, false)
  else lockBlock wf frames { initFmtState with dump := d0 }

/-- Final report text: the buffer contents with one trailing newline removed (logger.py lines 232-236). -/
def fmtText (st : FmtState) : String :=
  let s := String.join st.dump.out
  if s.data.getLast? = some '\n' then String.mk s.data.dropLast else s

/- ===== The notification handlers ===== -/

/-- Escape of one character by `html.escape(s, quote=False)`. -/
def escapeChar (c : Char) : List Char :=
  if c == '&' then "&amp;".data
  else if c == '<' then "&lt;".data
  else if c == '>' then "&gt;".data
  else [c]

/-- Model of `html.escape(s, quote=False)`: the ampersand replacement runs first in the library, so the sequential replaces coincide with a per-character expansion. -/
def escapeHtml (s : String) : String := String.mk ((s.data.map escapeChar).flatten)

/-- Whitespace characters recognised by Python `str.strip()`. -/
def isPysp (c : Char) : Bool :=
  c == ' ' || c == '\t' || c == '\n' || c == '\r' || c == '\x0b' || c == '\x0c'

/-- Model of Python `str.strip()`. -/
def pyStrip (s : String) : String :=
  String.mk (((s.data.dropWhile isPysp).reverse.dropWhile isPysp).reverse)

/-- Helper for `s.split('\n', 1)`: the characters before the first newline and, when one exists, those after it. -/
def splitNlAux : List Char → Option (List Char × List Char)
  | [] => none
  | c :: rest =>
    if c == '\n' then some ([], rest)
    else
      match splitNlAux rest with
      | some (a, b) => some (c :: a, b)
      | none => none

/-- Model of `s.split('\n', 1)` as the head plus the optional remainder. -/
def splitFirstNl (s : String) : String × Option String :=
  match splitNlAux s.data with
  | some (a, b) => (String.mk a, some (String.mk b))
  | none => (s, none)

/-- Transformation of one formatted traceback entry (logger.py lines 342-354): the first physical line is stripped and escaped; the remainder, when nonempty, is stripped, escaped and wrapped in a pre element; a newline terminates the entry. -/
def telegramLine (stackFrame : String) : String :=
  match splitFirstNl stackFrame with
  | (first, none) => escapeHtml (pyStrip first) ++ "\n"
  | (first, some rest) =>
    if rest = "" then escapeHtml (pyStrip first) ++ "\n"
    else escapeHtml (pyStrip first) ++ "\n" ++ "<pre>" ++ escapeHtml (pyStrip rest) ++ "</pre>" ++ "\n"

/-- Model of `'\n'.join(l)`. -/
def joinNl : List String → String
  | [] => ""
  | [s] => s
  | s :: rest => s ++ "\n" ++ joinNl rest

/-- Message text built by `TelegramHandler.emit` before truncation (logger.py lines 333-355).  `tbRaw` stands for the list `traceback.format_exception(*record.exc_info)` and is `none` when the record carries no exception info; the source drops its first element and reverses it. -/
def buildTelegramText (levelname appName message : String) (tbRaw : Option (List String)) : String :=
  let text := "<b>" ++ escapeHtml levelname ++ "</b> in <b>" ++ escapeHtml appName ++ "</b>: " ++ escapeHtml message
  match tbRaw with
  | none => text
  | some lines => text ++ "\n\n" ++ joinNl (((lines.drop 1).reverse).map telegramLine)

/-- Prefix test recursing on the pattern first. -/
def isPre : List Char → List Char → Bool
  | [], _ => true
  | _ :: _, [] => false
  | p :: ps, c :: cs => p == c && isPre ps cs

/-- Count of non-overlapping pattern occurrences, scanning from the left; `skip` is the number of characters still to pass over after a counted occurrence. -/
def countPatAux (p : List Char) : List Char → Nat → Nat
  | [], _ => 0
  | _ :: rest, skip + 1 => countPatAux p rest skip
  | c :: rest, 0 =>
    if isPre p (c :: rest) then 1 + countPatAux p rest (p.length - 1)
    else countPatAux p rest 0

/-- Count of non-overlapping occurrences of `p` in `s`. -/
def countPat (p s : List Char) : Nat := countPatAux p s 0

/-- Model of Python `s.count(p)` for a nonempty pattern. -/
def countSub (s p : String) : Nat := countPat p.data s.data

/-- Character truncation `s[:n]` of a Python string. -/
def pyTake (s : String) (n : Nat) : String := String.mk (s.data.take n)

/-- Truncation step of `TelegramHandler.emit` (logger.py lines 356-360): texts beyond 4096 characters are cut to 4089, one closing pre tag is appended when the open tags outnumber the close tags, and an ellipsis marks the cut. -/
def telegramTruncate (text : String) : String :=
  if 4096 < text.length then
    let t := pyTake text (4096 - 7)
    let t2 := if countSub t "</pre>" < countSub t "<pre>" then t ++ "</pre>" else t
    t2 ++ "…"
  else text

/-- Throttle timestamps: a log site (module name, line) maps to the seconds time of the last report. -/
abbrev ThrottleMap := List ((String × Nat) × Nat)

/-- Dictionary update for the throttle cache. -/
def throttleSet (m : ThrottleMap) (key : String × Nat) (now : Nat) : ThrottleMap :=
  (key, now) :: m

/-- Throttle test of both handlers (logger.py lines 251-254 and 329-332): report when the site is absent from the cache or its entry is more than five minutes (300 seconds) old. -/
def throttleExpired (m : ThrottleMap) (key : String × Nat) (now : Nat) : Bool :=
  match m.lookup key with
  | none => true
  | some t => 300 < now - t

/-- The fields of a log record that the two handlers read. -/
structure LogRecord where
  levelname : String
  moduleName : String
  lineno : Nat
  message : String
  excText : Option String
  excInfoRepr : Option String
  tbRaw : Option (List String)

/-- Fueled split of a character list on a nonempty separator. -/
def splitSubAux (sep : List Char) : Nat → List Char → List Char → List (List Char)
  | 0, cur, rest => [cur ++ rest]
  | fuel + 1, cur, rest =>
    match rest with
    | [] => [cur]
    | c :: rest2 =>
      if sep.isPrefixOf (c :: rest2) then
        cur :: splitSubAux sep fuel [] (List.drop (sep.length - 1) rest2)
      else splitSubAux sep fuel (cur ++ [c]) rest2

/-- Model of Python `s.split(sep)` for a nonempty separator. -/
def pySplitSub (s sep : String) : List String :=
  (splitSubAux sep.data s.data.length [] s.data).map String.mk

/-- One slack section: the pretext line and the optional body (logger.py lines 269-271). -/
def slackSection (s : String) : String × Option String := splitFirstNl (pyStrip s)

/-- Sections extracted from the formatted exception text (logger.py lines 264-273). -/
def slackSections (excText : Option String) : List (String × Option String) :=
  match excText with
  | none => []
  | some t =>
    (((pySplitSub t "----------").map (fun s => pySplitSub s "----")).flatten).map slackSection

/-- One attachment of the slack payload. -/
structure SlackAttachment where
  fallback : String
  pretext : String
  text : String
deriving DecidableEq

/-- The slack payload data (logger.py lines 275-293). -/
structure SlackPayload where
  text : String
  attachments : List SlackAttachment
deriving DecidableEq

/-- Payload construction of `SlackHandler.emit` (logger.py lines 275-293). -/
def buildSlackData (appName : String) (r : LogRecord) : SlackPayload :=
  { text := "*" ++ r.levelname ++ "* in " ++ appName ++ ": " ++ r.message ++ ": `" ++
      (match r.excInfoRepr with | some i => i | none => "") ++ "`",
    attachments := (slackSections r.excText).map (fun sec =>
      { fallback := sec.1, pretext := sec.1,
        text := match sec.2 with
          | some body => "```\n" ++ body ++ "\n```"
          | none => "" }) }

/-- One configured slack webhook. -/
structure SlackWebhook where
  url : String
  levelnames : List String

/-- Delivery loop of `SlackHandler.emit` (logger.py lines 295-313): webhooks not accepting the record's level are skipped; each post runs inside a bare try/except whose handler does nothing; the throttle timestamp is recorded after the attempt whether or not the post raised. -/
def slackLoop (levelname : String) (key : String × Nat) (now : Nat) (post : Nat → Except Unit Unit) : Nat → List SlackWebhook → ThrottleMap → Except Unit ThrottleMap
  | _, [], m => .ok m
  | i, w :: ws, m =>
    if w.levelnames.contains levelname then
      match post i with
      | .ok _ => slackLoop levelname key now post (i + 1) ws (throttleSet m key now)
      | .error _ => slackLoop levelname key now post (i + 1) ws (throttleSet m key now)
    else slackLoop levelname key now post (i + 1) ws m

/-- Model of `SlackHandler.emit` (logger.py lines 248-313).  `post i` is the outcome of the HTTP post to webhook `i`. -/
def slackEmit (appName : String) (webhooks : List SlackWebhook) (post : Nat → Except Unit Unit) (m : ThrottleMap) (now : Nat) (r : LogRecord) : Except Unit ThrottleMap :=
  if throttleExpired m (r.moduleName, r.lineno) now then
    if !(webhooks.any (fun w => w.levelnames.contains r.levelname)) then .ok m
    else
      let _payload := buildSlackData appName r
      slackLoop r.levelname (r.moduleName, r.lineno) now post 0 webhooks m
  else .ok m

/-- Model of `TelegramHandler.emit` (logger.py lines 326-371): past the throttle check the message is built and truncated, then posted with no exception guard around the HTTP call, and the timestamp is recorded only after the post returns. -/
def telegramEmit (appName : String) (post : String → Except Unit Unit) (m : ThrottleMap) (now : Nat) (r : LogRecord) : Except Unit ThrottleMap :=
  if throttleExpired m (r.moduleName, r.lineno) now then
    let text := telegramTruncate (buildTelegramText r.levelname appName r.message r.tbRaw)
    match post text with
    | .ok _ => .ok (throttleSet m (r.moduleName, r.lineno) now)
    | .error e => .error e
  else .ok m

/- ===== Slug generation and compound identifiers =====

The naming mixins and identifier properties live in coaster/sqlalchemy of
the repository, which is not under src/; only their tests are.  The
definitions below are therefore modelled from the specification (spec
sections 4.1 and 4.2) and say so in their doc comments. -/

mutual

/-- Separator collapsing, normal mode: alphanumerics pass through, a non-alphanumeric starts a single hyphen. -/
def collapseSepsA : List Char → List Char
  | [] => []
  | c :: rest => if c.isAlphanum then c :: collapseSepsA rest else '-' :: collapseSepsB rest

/-- Separator collapsing after an emitted hyphen: further non-alphanumerics of the run are dropped. -/
def collapseSepsB : List Char → List Char
  | [] => []
  | c :: rest => if c.isAlphanum then c :: collapseSepsA rest else collapseSepsB rest

end

/-- Modelled from the spec: title normalization of spec 4.1 for `make_name` of the naming mixins (absent from src/) -- lowercase, non-alphanumeric runs collapsed to single hyphens, leading and trailing hyphens stripped, truncation to the optional maximum length. -/
def normalizeName (title : String) (maxLength : Option Nat) : String :=
  let cs := collapseSepsA (title.data.map Char.toLower)
  let cs2 := ((cs.dropWhile (fun c => c == '-')).reverse.dropWhile (fun c => c == '-')).reverse
  let cs3 := match maxLength with
    | some n => cs2.take n
    | none => cs2
  String.mk cs3

/-- Modelled from the spec: a name is taken when it is reserved or present in the scope; the scope list stands for the persistent rows and the pending siblings together (spec 4.1). -/
def nameTaken (n : String) (scope reserved : List String) : Bool :=
  scope.contains n || reserved.contains n

/-- Modelled from the spec: the suffix search of spec 4.1, appending integers from 2 upward until a free name is found.  The fuel bounds the search by the finite number of taken names. -/
def makeNameAux (base : String) (scope reserved : List String) : Nat → Nat → Option String
  | 0, _ => none
  | fuel + 1, k =>
    let cand := base ++ natToDec k
    if nameTaken cand scope reserved then makeNameAux base scope reserved fuel (k + 1)
    else some cand

/-- Modelled from the spec: `makeName(title, scope, reservedNames, maxLength)` of spec 4.1, for the `make_name` logic absent from src/.  The `none` result models the error on an empty normalized name. -/
def makeName (title : String) (scope reserved : List String) (maxLength : Option Nat) : Option String :=
  let base := normalizeName title maxLength
  if base = "" then none
  else if !(nameTaken base scope reserved) then some base
  else makeNameAux base scope reserved (scope.length + reserved.length + 2) 2

/-- Digit value of a decimal character. -/
def decVal (c : Char) : Option Nat :=
  if '0' ≤ c && c ≤ '9' then some (c.toNat - 48) else none

/-- Fold of digit characters in base `B` with validity checking; the empty digit string is invalid. -/
def foldDigits (B : Nat) (val : Char → Option Nat) (cs : List Char) : Option Nat :=
  if cs.isEmpty then none
  else cs.foldl (fun acc c => acc.bind (fun a => (val c).map (fun d => a * B + d))) (some 0)

/-- Hexadecimal digit character, lowercase. -/
def hexChar (n : Nat) : Char := if n < 10 then Char.ofNat (48 + n) else Char.ofNat (87 + n)

/-- Digit value of a lowercase hexadecimal character. -/
def hexVal (c : Char) : Option Nat :=
  if '0' ≤ c && c ≤ '9' then some (c.toNat - 48)
  else if 'a' ≤ c && c ≤ 'f' then some (c.toNat - 87)
  else none

/-- Fixed-width digit expansion, most significant digit first. -/
def digitsFix (B : Nat) (digitC : Nat → Char) : Nat → Nat → List Char
  | 0, _ => []
  | k + 1, n => digitsFix B digitC k (n / B) ++ [digitC (n % B)]

/-- Modelled from the spec: the 32-character dashless hex form of a UUID primary key (spec 4.2), the UUID taken as its 128-bit integer. -/
def uuidHex (u : Nat) : String := String.mk (digitsFix 16 hexChar 32 u)

/-- Modelled from the spec: the dashed 8-4-4-4-12 rendering of a UUID. -/
def uuidDashed (u : Nat) : String :=
  let h := digitsFix 16 hexChar 32 u
  String.mk (h.take 8 ++ '-' :: ((h.drop 8).take 4) ++ '-' :: ((h.drop 12).take 4) ++ '-' :: ((h.drop 16).take 4) ++ '-' :: h.drop 20)

/-- Modelled from the spec: the compound identifier of an integer-keyed entity, the decimal key joined to the slug by a hyphen (spec 4.2). -/
def urlIdName (idNum : Nat) (name : String) : String := natToDec idNum ++ "-" ++ name

/-- Modelled from the spec: reverse lookup for integer keys -- the leading decimal run before the first hyphen is the key; malformed keys parse as none rather than raising (spec 4.2). -/
def parseUrlIdName (s : String) : Option Nat :=
  foldDigits 10 decVal (s.data.takeWhile (fun c => c ≠ '-'))

/-- Modelled from the spec: the compound identifier of a UUID-keyed entity with the hex key (spec 4.2). -/
def urlIdNameUuid (u : Nat) (name : String) : String := uuidHex u ++ "-" ++ name

/-- Parsing helper consuming exactly `n` characters. -/
def takeN (n : Nat) (l : List Char) : Option (List Char × List Char) :=
  if l.length < n then none else some (l.take n, l.drop n)

/-- Parsing helper consuming one hyphen. -/
def expectDash : List Char → Option (List Char)
  | '-' :: r => some r
  | _ => none

/-- Modelled from the spec: assembly of the 32 hex digits of a dashed UUID rendering. -/
def stripDashes (cs : List Char) : Option (List Char) := do
  let (a, r) ← takeN 8 cs
  let r ← expectDash r
  let (b, r) ← takeN 4 r
  let r ← expectDash r
  let (c, r) ← takeN 4 r
  let r ← expectDash r
  let (d, r) ← takeN 4 r
  let r ← expectDash r
  let (e, r) ← takeN 12 r
  if r.isEmpty then pure (a ++ b ++ c ++ d ++ e) else none

/-- Modelled from the spec: UUID key parsing accepting the 32-character hex form and the dashed form; anything else is no match rather than an error (spec 4.2). -/
def parseUuidKey (s : String) : Option Nat :=
  if s.data.length == 32 then foldDigits 16 hexVal s.data
  else
    match stripDashes s.data with
    | some h => foldDigits 16 hexVal h
    | none => none

/-- Modelled from the spec: reverse lookup tolerating a name suffix after the hex key (spec 4.2). -/
def parseUuidHexName (s : String) : Option Nat :=
  parseUuidKey (String.mk (s.data.takeWhile (fun c => c ≠ '-')))

/-- Base58 alphabet of the compact encoding. -/
def b58Alphabet : List Char := "123456789ABCDEFGHJKLMNPQRSTUVWXYZabcdefghijkmnopqrstuvwxyz".data

/-- Base58 digit character. -/
def b58Char (n : Nat) : Char := b58Alphabet.getD n ' '

/-- Base58 digit value. -/
def b58Val (c : Char) : Option Nat := b58Alphabet.findIdx? (fun d => d == c)

/-- Modelled from the spec: the compact base58 rendering of a UUID key, 21 to 22 characters for a 128-bit value (spec 4.2). -/
def encodeB58 (u : Nat) : String := String.mk (digitsAux 58 b58Char (u + 1) u)

/-- Modelled from the spec: base58 decoding; malformed characters decode as none. -/
def decodeB58 (s : String) : Option Nat := foldDigits 58 b58Val s.data

/-- Modelled from the spec: the compact compound identifier used by the tests -- name, hyphen, base58 key. -/
def urlNameB58 (u : Nat) (name : String) : String := name ++ "-" ++ encodeB58 u

/-- Characters after the last hyphen. -/
def afterLastDash (cs : List Char) : List Char :=
  (cs.reverse.takeWhile (fun c => c ≠ '-')).reverse

/-- Modelled from the spec: reverse lookup of the compact compound identifier -- the portion after the last hyphen is the base58 key. -/
def parseNameB58 (s : String) : Option Nat := decodeB58 (String.mk (afterLastDash s.data))


/- ===== Helper lemmas about the redaction functions ===== -/

/-- Unfolding equation of `cardFound` at positive fuel. -/
theorem cardFound_succ (f : Nat) (prev : Option Char) (cs : List Char) :
    cardFound (f + 1) prev cs =
      (match cardMatchAt prev cs with
       | some _ => true
       | none =>
         match cs with
         | [] => false
         | c :: cs2 => cardFound f (some c) cs2) := rfl

/-- Unfolding equation of `cardScan` at positive fuel. -/
theorem cardScan_succ (f : Nat) (prev : Option Char) (cs : List Char) :
    cardScan (f + 1) prev cs =
      (match cardMatchAt prev cs with
       | some (lastc, rest2) => "[Filtered]".data ++ cardScan f (some lastc) rest2
       | none =>
         match cs with
         | [] => []
         | c :: cs2 => c :: cardScan f (some c) cs2) := rfl

/-- Helper: a successful match attempt means the input starts with a digit. -/
theorem cardMatchAt_some (prev : Option Char) (cs : List Char) (r : Char × List Char)
    (h : cardMatchAt prev cs = some r) : ∃ c cs2, cs = c :: cs2 ∧ c.isDigit = true := by
  cases cs with
  | nil => simp [cardMatchAt] at h
  | cons c cs2 =>
    refine ⟨c, cs2, rfl, ?_⟩
    unfold cardMatchAt at h
    by_cases hd : c.isDigit = true
    · exact hd
    · simp [Bool.eq_false_iff.mpr hd] at h

/-- Helper: when the search succeeds the substitution scan changes the character list. -/
theorem cardScan_ne_of_found : ∀ (fuel : Nat) (prev : Option Char) (cs : List Char),
    cardFound fuel prev cs = true → cardScan fuel prev cs ≠ cs := by
  intro fuel
  induction fuel with
  | zero => intro prev cs h; simp [cardFound] at h
  | succ f ih =>
    intro prev cs h
    rw [cardFound_succ] at h
    rw [cardScan_succ]
    cases hm : cardMatchAt prev cs with
    | some r =>
      obtain ⟨c, cs2, hcs, hd⟩ := cardMatchAt_some prev (r := r) _ hm
      obtain ⟨lastc, rest2⟩ := r
      dsimp only
      rw [hcs]
      intro heq
      simp only [List.cons_append] at heq
      have hc : '[' = c := (List.cons.injEq _ _ _ _ ▸ heq).1
      rw [← hc] at hd
      exact absurd hd (by decide)
    | none =>
      dsimp only
      cases cs with
      | nil =>
        rw [hm] at h
        simp at h
      | cons c cs2 =>
        rw [hm] at h
        dsimp only at h
        intro heq
        have h2 : cardScan f (some c) cs2 = cs2 := (List.cons.injEq _ _ _ _ ▸ heq).2
        exact ih (some c) cs2 h h2

/-- Helper: a card-number match makes `cardSub` differ from its input. -/
theorem cardSub_ne_of_search (s : String) (h : cardSearch s = true) : cardSub s ≠ s := by
  intro he
  apply cardScan_ne_of_found (s.data.length + 1) none s.data h
  have h2 := congrArg String.data he
  simpa [cardSub] using h2

/- ===== Claim C2 ===== -/

/-- C2: for every key matching the sensitive keyword pattern and every value of any type, `filtered_value` returns the filtered-value indicator, whose str and repr are the fixed marker, never the underlying value. -/
theorem c2_sensitive_key_always_filtered (k : String) (v : PyValue)
    (h : filterMatch k = true) :
    filtered_value (.str k) v = .filteredValueIndicator ∧
    renderRepr (filtered_value (.str k) v) = .ok "[Filtered]" ∧
    renderStr (filtered_value (.str k) v) = .ok "[Filtered]" := by
  have e : filtered_value (.str k) v = .filteredValueIndicator := by
    simp [filtered_value, keyMatches, h]
  exact ⟨e, by rw [e]; rfl, by rw [e]; rfl⟩

/-- Witness for C2 at the spec's example: a local named api_key holding the string sk-12345 renders as the marker. -/
theorem c2_sensitive_key_always_filtered_witness :
    filtered_value (.str "api_key") (.str "sk-12345") = .filteredValueIndicator ∧
    renderRepr (filtered_value (.str "api_key") (.str "sk-12345")) = .ok "[Filtered]" ∧
    renderStr (filtered_value (.str "api_key") (.str "sk-12345")) = .ok "[Filtered]" :=
  c2_sensitive_key_always_filtered "api_key" (.str "sk-12345") (by decide)

/- ===== Claim C10 ===== -/

/-- C10: the keyword mask of `filtered_value` requires a string key -- with a non-string key the filter never fires and the value branch alone decides the result; a non-string value passes through unchanged under a non-string key; and card masking touches only values that are themselves strings, every other value being returned unchanged or replaced by the indicator, never card-masked. -/
theorem c10_type_guards_of_filtered_value :
    (∀ (key v : PyValue), (∀ s, key ≠ .str s) →
      filtered_value key v = (match v with
        | .str s => .str (cardSub s)
        | _ => v)) ∧
    (∀ (key v : PyValue), (∀ s, key ≠ .str s) → (∀ s, v ≠ .str s) → filtered_value key v = v) ∧
    (∀ (key v : PyValue), (∀ s, v ≠ .str s) →
      filtered_value key v = v ∨ filtered_value key v = .filteredValueIndicator) := by
  have hkm : ∀ (key : PyValue), (∀ s, key ≠ .str s) → keyMatches key = false := by
    intro key hk
    match key, hk with
    | .str s, hk => exact absurd rfl (hk s)
    | .int i, _ => rfl
    | .obj a b, _ => rfl
    | .objBadRepr a b, _ => rfl
    | .filteredValueIndicator, _ => rfl
    | .repeatValueIndicator a, _ => rfl
  have key_guard : ∀ (key v : PyValue), (∀ s, key ≠ .str s) →
      filtered_value key v = (match v with
        | .str s => .str (cardSub s)
        | _ => v) := by
    intro key v hk
    simp [filtered_value, hkm key hk]
  refine ⟨key_guard, ?_, ?_⟩
  · intro key v hk hv
    rw [key_guard key v hk]
    match v, hv with
    | .str t, hv => exact absurd rfl (hv t)
    | .int i, _ => rfl
    | .obj a b, _ => rfl
    | .objBadRepr a b, _ => rfl
    | .filteredValueIndicator, _ => rfl
    | .repeatValueIndicator a, _ => rfl
  · intro key v hv
    cases hf : keyMatches key with
    | true => right; simp [filtered_value, hf]
    | false =>
      left
      match v, hv with
      | .str t, hv => exact absurd rfl (hv t)
      | .int i, _ => simp [filtered_value, hf]
      | .obj a b, _ => simp [filtered_value, hf]
      | .objBadRepr a b, _ => simp [filtered_value, hf]
      | .filteredValueIndicator, _ => simp [filtered_value, hf]
      | .repeatValueIndicator a, _ => simp [filtered_value, hf]

/-- Witness for C10: a non-string key with a card-like string value, and with non-string values. -/
theorem c10_type_guards_of_filtered_value_witness :
    filtered_value (.int 0) (.str "4111111111111111") = .str (cardSub "4111111111111111") ∧
    filtered_value (.int 0) (.int 7) = .int 7 ∧
    (filtered_value (.str "password") (.int 7) = .int 7 ∨
      filtered_value (.str "password") (.int 7) = .filteredValueIndicator) := by
  refine ⟨?_, ?_, ?_⟩
  · exact c10_type_guards_of_filtered_value.1 (.int 0) (.str "4111111111111111")
      (by intro s h; exact PyValue.noConfusion h)
  · exact c10_type_guards_of_filtered_value.2.1 (.int 0) (.int 7)
      (by intro s h; exact PyValue.noConfusion h) (by intro s h; exact PyValue.noConfusion h)
  · exact c10_type_guards_of_filtered_value.2.2 (.str "password") (.int 7)
      (by intro s h; exact PyValue.noConfusion h)

/- ===== Claim C5 ===== -/

/-- C5 counterexample: the integer 4111111111111111 has a string form matching the card pattern, yet `filtered_value` returns it unchanged under a non-sensitive key and its rendering exposes the digits, refuting masking for values of any type. -/
theorem c5_counterexample :
    renderStr (.int 4111111111111111) = .ok "4111111111111111" ∧
    cardSearch "4111111111111111" = true ∧
    filtered_value (.str "x") (.int 4111111111111111) = .int 4111111111111111 ∧
    renderRepr (filtered_value (.str "x") (.int 4111111111111111)) = .ok "4111111111111111" := by
  exact ⟨rfl, by decide, by decide, rfl⟩

/-- C5 amended: regardless of the key, card masking applies exactly to values that are themselves strings -- a matched string value really changes to the masked form, while a non-string value passes through `filtered_value` unchanged whatever its string form, provided the key does not trip the keyword filter. -/
theorem c5_amended_card_mask_only_strings (key : PyValue) (s : String)
    (hk : keyMatches key = false) :
    filtered_value key (.str s) = .str (cardSub s) ∧
    (cardSearch s = true → cardSub s ≠ s) ∧
    (∀ v : PyValue, (∀ t, v ≠ .str t) → filtered_value key v = v) := by
  refine ⟨by simp [filtered_value, hk], fun h => cardSub_ne_of_search s h, ?_⟩
  intro v hv
  match v, hv with
  | .str t, hv => exact absurd rfl (hv t)
  | .int i, _ => simp [filtered_value, hk]
  | .obj a b, _ => simp [filtered_value, hk]
  | .objBadRepr a b, _ => simp [filtered_value, hk]
  | .filteredValueIndicator, _ => simp [filtered_value, hk]
  | .repeatValueIndicator a, _ => simp [filtered_value, hk]

/-- Witness for the amended C5 at a non-sensitive key and a card-like string value. -/
theorem c5_amended_card_mask_only_strings_witness :
    filtered_value (.str "k") (.str "4111 1111 1111 1111") = .str (cardSub "4111 1111 1111 1111") ∧
    (cardSearch "4111 1111 1111 1111" = true →
      cardSub "4111 1111 1111 1111" ≠ "4111 1111 1111 1111") ∧
    (∀ v : PyValue, (∀ t, v ≠ .str t) → filtered_value (.str "k") v = v) :=
  c5_amended_card_mask_only_strings (.str "k") "4111 1111 1111 1111" (by decide)

/- ===== Claim C4 ===== -/

/-- C4 counterexample: when the third write raises partway through the frame dump (an exit caused by an exception inside the lock-guarded block), `formatException` exits with the lock released but `Config.__repr__` still patched -- the restoring assignment at logger.py line 182 is skipped on this exit path. -/
theorem c4_counterexample :
    ((formatExceptionM (fun n => n == 2) "tb" [⟨"f", "file.py", 1, [("x", 0, .int 0)]⟩]).1.lockHeld
      = false) ∧
    ((formatExceptionM (fun n => n == 2) "tb" [⟨"f", "file.py", 1, [("x", 0, .int 0)]⟩]).1.configPatched
      = true) ∧
    ((formatExceptionM (fun n => n == 2) "tb" [⟨"f", "file.py", 1, [("x", 0, .int 0)]⟩]).2 = false) := by
  refine ⟨?_, ?_, ?_⟩ <;> decide

/-- C4 amended: the formatter's lock is released on every exit path of `formatException`, and the original `Config.__repr__` is restored exactly on the paths where the frame dump completes without an uncaught exception; an exceptional exit from the dump leaves the patch in place. -/
theorem c4_amended_lock_always_restore_on_success (wf : WriteOracle) (tbText : String)
    (frames : List PyFrame) :
    (formatExceptionM wf tbText frames).1.lockHeld = false ∧
    ((formatExceptionM wf tbText frames).2 = true →
      (formatExceptionM wf tbText frames).1.configPatched = false) := by
  unfold formatExceptionM lockBlock
  rcases emitChunk wf tbText initFmtState.dump with ⟨d0, ok0⟩
  cases ok0 with
  | false => exact ⟨rfl, by intro h; exact absurd h (by simp)⟩
  | true =>
    dsimp only
    rcases emitChunk wf "\n----------\n\n" d0 with ⟨d1, ok1⟩
    cases ok1 with
    | false => exact ⟨rfl, by intro h; exact absurd h (by simp)⟩
    | true =>
      dsimp only
      rcases emitChunk wf "Stack frames (most recent call first):\n" d1 with ⟨d2, ok2⟩
      cases ok2 with
      | false => exact ⟨rfl, by intro h; exact absurd h (by simp)⟩
      | true =>
        dsimp only
        rcases processFrames wf d2 frames with ⟨d3, ok3⟩
        cases ok3 with
        | false => exact ⟨rfl, by intro h; exact absurd h (by simp)⟩
        | true => exact ⟨rfl, fun _ => rfl⟩

/-- Witness for the amended C4 on a concrete successful run. -/
theorem c4_amended_lock_always_restore_on_success_witness :
    (formatExceptionM writesOk "tb" []).1.lockHeld = false ∧
    ((formatExceptionM writesOk "tb" []).2 = true →
      (formatExceptionM writesOk "tb" []).1.configPatched = false) :=
  c4_amended_lock_always_restore_on_success writesOk "tb" []

/- ===== Claim C1 ===== -/

/-- Unfolding equation of the suffix search at positive fuel. -/
theorem makeNameAux_succ (base : String) (scope reserved : List String) (fuel k : Nat) :
    makeNameAux base scope reserved (fuel + 1) k =
      (if nameTaken (base ++ natToDec k) scope reserved then
        makeNameAux base scope reserved fuel (k + 1)
       else some (base ++ natToDec k)) := rfl

/-- Helper: the suffix search stops at a free candidate. -/
theorem makeNameAux_one_step (base : String) (scope reserved : List String) (x k : Nat)
    (h : nameTaken (base ++ natToDec k) scope reserved = false) :
    makeNameAux base scope reserved (x + 1) k = some (base ++ natToDec k) := by
  rw [makeNameAux_succ, h]
  simp

/-- Helper: the suffix search skips one taken candidate and stops at the free one after it. -/
theorem makeNameAux_two_steps (base : String) (scope reserved : List String) (x k : Nat)
    (h1 : nameTaken (base ++ natToDec k) scope reserved = true)
    (h2 : nameTaken (base ++ natToDec (k + 1)) scope reserved = false) :
    makeNameAux base scope reserved (x + 2) k = some (base ++ natToDec (k + 1)) := by
  have e : x + 2 = (x + 1) + 1 := rfl
  rw [e, makeNameAux_succ, h1]
  simp only [if_true]
  exact makeNameAux_one_step base scope reserved x (k + 1) h2

/-- C1: with the candidate names initially free in the scope, three successive creations titled Hello receive hello, hello2 and hello3 from the spec-modelled `makeName`, each new name joining the scope for the next call. -/
theorem c1_successive_collisions (scope : List String)
    (h1 : "hello" ∉ scope)
    (h2 : "hello2" ∉ scope)
    (h3 : "hello3" ∉ scope) :
    makeName "Hello" scope [] none = some "hello" ∧
    makeName "Hello" ("hello" :: scope) [] none = some "hello2" ∧
    makeName "Hello" ("hello2" :: "hello" :: scope) [] none = some "hello3" := by
  have e0 : normalizeName "Hello" none = "hello" := by decide
  have d2 : ("hello" : String) ++ natToDec 2 = "hello2" := by decide
  have d3 : ("hello" : String) ++ natToDec 3 = "hello3" := by decide
  refine ⟨?_, ?_, ?_⟩
  · have ht : nameTaken "hello" scope [] = false := by
      simp [nameTaken, h1]
    simp [makeName, e0, ht]
  · have ht : nameTaken "hello" ("hello" :: scope) [] = true := by
      simp [nameTaken]
    have ht2 : nameTaken ("hello" ++ natToDec 2) ("hello" :: scope) [] = false := by
      rw [d2]
      simp [nameTaken, h2]
    simp only [makeName, e0, ht, Bool.not_true]
    rw [if_neg (by decide), if_neg (by simp)]
    rw [makeNameAux_one_step _ _ _ (("hello" :: scope).length + ([] : List String).length + 1) 2 ht2, d2]
  · have ht : nameTaken "hello" ("hello2" :: "hello" :: scope) [] = true := by
      simp [nameTaken]
    have ht2 : nameTaken ("hello" ++ natToDec 2) ("hello2" :: "hello" :: scope) [] = true := by
      rw [d2]
      simp [nameTaken]
    have ht3 : nameTaken ("hello" ++ natToDec (2 + 1)) ("hello2" :: "hello" :: scope) [] = false := by
      have e23 : (2 : Nat) + 1 = 3 := rfl
      rw [e23, d3]
      simp [nameTaken, h3]
    simp only [makeName, e0, ht, Bool.not_true]
    rw [if_neg (by decide), if_neg (by simp)]
    rw [makeNameAux_two_steps _ _ _ (("hello2" :: "hello" :: scope).length + ([] : List String).length) 2 ht2 ht3]
    rw [show (2 : Nat) + 1 = 3 from rfl, d3]

/-- Witness for C1 at the empty scope. -/
theorem c1_successive_collisions_witness :
    makeName "Hello" [] [] none = some "hello" ∧
    makeName "Hello" ("hello" :: []) [] none = some "hello2" ∧
    makeName "Hello" ("hello2" :: "hello" :: []) [] none = some "hello3" :=
  c1_successive_collisions [] (by decide) (by decide) (by decide)

/- ===== Claim C3 ===== -/

/-- Helper: the slack delivery loop returns normally for every outcome of the posts. -/
theorem slackLoop_ok (levelname : String) (key : String × Nat) (now : Nat)
    (post : Nat → Except Unit Unit) :
    ∀ (i : Nat) (ws : List SlackWebhook) (m : ThrottleMap),
      ∃ m2, slackLoop levelname key now post i ws m = .ok m2 := by
  intro i ws
  induction ws generalizing i with
  | nil => intro m; exact ⟨m, rfl⟩
  | cons w ws ih =>
    intro m
    unfold slackLoop
    cases hl : w.levelnames.contains levelname with
    | true =>
      simp only [hl, if_true]
      cases post i with
      | ok _ => exact ih (i + 1) (throttleSet m key now)
      | error _ => exact ih (i + 1) (throttleSet m key now)
    | false =>
      simp only [hl, Bool.false_eq_true, if_false]
      exact ih (i + 1) m

/-- C3: `SlackHandler.emit` swallows every delivery failure and returns normally, while `TelegramHandler.emit` has no guard around its HTTP post, so a failing post propagates to the logging caller; the concrete record below is past the throttle window and its post raises. -/
theorem c3_slack_swallows_telegram_propagates :
    (∀ (appName : String) (webhooks : List SlackWebhook) (post : Nat → Except Unit Unit)
        (m : ThrottleMap) (now : Nat) (r : LogRecord),
      ∃ m2, slackEmit appName webhooks post m now r = .ok m2) ∧
    telegramEmit "app" (fun _ => .error ()) [] 0
      { levelname := "ERROR", moduleName := "m", lineno := 1, message := "boom",
        excText := none, excInfoRepr := none, tbRaw := none } = .error () := by
  constructor
  · intro appName webhooks post m now r
    unfold slackEmit
    cases hth : throttleExpired m (r.moduleName, r.lineno) now with
    | false =>
      simp only [hth, Bool.false_eq_true, if_false]
      exact ⟨m, rfl⟩
    | true =>
      simp only [hth, if_true]
      cases hlv : (webhooks.any fun w => w.levelnames.contains r.levelname) with
      | false => simp only [hlv, Bool.not_false, if_true]; exact ⟨m, rfl⟩
      | true =>
        simp only [hlv, Bool.not_true, Bool.false_eq_true, if_false]
        exact slackLoop_ok r.levelname (r.moduleName, r.lineno) now post 0 webhooks m
  · rfl

/- ===== Helper lemmas about the frame dump under the no-failure oracle ===== -/

/-- Helper: a write under the no-failure oracle appends its chunk. -/
theorem emitChunk_writesOk (c : String) (st : DumpState) :
    emitChunk writesOk c st = ({ st with wcount := st.wcount + 1, out := st.out ++ [c] }, true) := rfl

/-- Value chunk one local contributes: the repr of the filtered value -- a repeat indicator when the identity was seen before -- or the fixed placeholder when the repr raises. -/
def localChunk (st : DumpState) (a : String) (i : Nat) (v : PyValue) : String :=
  match renderRepr (filtered_value (.str a)
      (match st.cache.lookup i with
       | some k => PyValue.repeatValueIndicator k
       | none => v)) with
  | .ok r => r ++ "\n"
  | .error _ => "<ERROR WHILE PRINTING VALUE>\n"

/-- Cache after one local: a first-seen identity joins it. -/
def localCache (fname : String) (st : DumpState) (a : String) (i : Nat) : List (Nat × String) :=
  match st.cache.lookup i with
  | some _ => st.cache
  | none => st.cache ++ [(i, fname ++ "." ++ a)]

/-- Helper: full characterization of one local's processing under the no-failure oracle. -/
theorem processLocal_writesOk_eq (fname : String) (st : DumpState) (a : String) (i : Nat)
    (v : PyValue) :
    processLocal writesOk fname st (a, i, v) =
      ({ cache := localCache fname st a i,
         wcount := st.wcount + 1 + 1,
         out := st.out ++ ["\t" ++ rightAlign20 a ++ " =  ", localChunk st a i v] }, true) := by
  cases hc : st.cache.lookup i with
  | some k =>
    unfold processLocal localChunk localCache
    simp only [hc]
    cases hr : renderRepr (filtered_value (.str a) (.repeatValueIndicator k)) with
    | ok r => simp [emitChunk, writesOk, hr]
    | error e => simp [emitChunk, writesOk, hr]
  | none =>
    unfold processLocal localChunk localCache
    simp only [hc]
    cases hr : renderRepr (filtered_value (.str a) v) with
    | ok r => simp [emitChunk, writesOk, hr]
    | error e => simp [emitChunk, writesOk, hr]

/-- Helper: the cons step of locals processing under a successful head. -/
theorem processLocals_cons_of (wf : WriteOracle) (fname : String) (st st2 : DumpState)
    (l : String × Nat × PyValue) (ls : List (String × Nat × PyValue))
    (h : processLocal wf fname st l = (st2, true)) :
    processLocals wf fname st (l :: ls) = processLocals wf fname st2 ls := by
  conv_lhs => unfold processLocals
  rw [h]
  rfl

/-- Helper: locals processing always succeeds under the no-failure oracle. -/
theorem processLocals_writesOk_ok (fname : String) :
    ∀ (ls : List (String × Nat × PyValue)) (st : DumpState),
      (processLocals writesOk fname st ls).2 = true := by
  intro ls
  induction ls with
  | nil => intro st; rfl
  | cons l ls ih =>
    intro st
    obtain ⟨a, i, v⟩ := l
    rw [processLocals_cons_of writesOk fname st _ _ ls (processLocal_writesOk_eq fname st a i v)]
    exact ih _

/-- Helper: each local contributes exactly two chunks under the no-failure oracle. -/
theorem processLocals_writesOk_len (fname : String) :
    ∀ (ls : List (String × Nat × PyValue)) (st : DumpState),
      (processLocals writesOk fname st ls).1.out.length = st.out.length + 2 * ls.length := by
  intro ls
  induction ls with
  | nil => intro st; simp [processLocals]
  | cons l ls ih =>
    intro st
    obtain ⟨a, i, v⟩ := l
    rw [processLocals_cons_of writesOk fname st _ _ ls (processLocal_writesOk_eq fname st a i v)]
    rw [ih]
    simp
    omega

/-- Helper: chunks already written survive further locals processing. -/
theorem processLocals_writesOk_mono (fname : String) (x : String) :
    ∀ (ls : List (String × Nat × PyValue)) (st : DumpState),
      x ∈ st.out → x ∈ (processLocals writesOk fname st ls).1.out := by
  intro ls
  induction ls with
  | nil => intro st hx; exact hx
  | cons l ls ih =>
    intro st hx
    obtain ⟨a, i, v⟩ := l
    rw [processLocals_cons_of writesOk fname st _ _ ls (processLocal_writesOk_eq fname st a i v)]
    exact ih _ (by simp [hx])

/-- Helper: locals processing splits over list append under the no-failure oracle. -/
theorem processLocals_writesOk_append (fname : String) :
    ∀ (ls1 ls2 : List (String × Nat × PyValue)) (st : DumpState),
      processLocals writesOk fname st (ls1 ++ ls2) =
        processLocals writesOk fname (processLocals writesOk fname st ls1).1 ls2 := by
  intro ls1
  induction ls1 with
  | nil => intro ls2 st; rfl
  | cons l ls1 ih =>
    intro ls2 st
    obtain ⟨a, i, v⟩ := l
    rw [List.cons_append,
      processLocals_cons_of writesOk fname st _ _ (ls1 ++ ls2) (processLocal_writesOk_eq fname st a i v),
      processLocals_cons_of writesOk fname st _ _ ls1 (processLocal_writesOk_eq fname st a i v)]
    exact ih ls2 _

/-- Helper: an association lookup misses an appended list when it misses both parts. -/
theorem lookup_append_none (i : Nat) :
    ∀ (l1 l2 : List (Nat × String)), l1.lookup i = none → l2.lookup i = none →
      (l1 ++ l2).lookup i = none := by
  intro l1
  induction l1 with
  | nil => intro l2 _ h2; exact h2
  | cons p l1 ih =>
    intro l2 h1 h2
    obtain ⟨j, k⟩ := p
    simp only [List.cons_append, List.lookup] at h1 ⊢
    cases hij : (i == j) with
    | true =>
      rw [hij] at h1
      simp at h1
    | false =>
      rw [hij] at h1
      dsimp only at h1 ⊢
      exact ih l2 h1 h2

/-- Helper: an identity absent from the processed locals and from the cache stays out of the cache. -/
theorem processLocals_writesOk_lookup_none (fname : String) (i : Nat) :
    ∀ (ls : List (String × Nat × PyValue)) (st : DumpState),
      i ∉ ls.map (fun l => l.2.1) → st.cache.lookup i = none →
      (processLocals writesOk fname st ls).1.cache.lookup i = none := by
  intro ls
  induction ls with
  | nil => intro st _ hc; exact hc
  | cons l ls ih =>
    intro st hni hc
    obtain ⟨a, j, v⟩ := l
    have hij : i ≠ j := by
      intro h
      exact hni (by simp [h])
    have hni2 : i ∉ ls.map (fun l => l.2.1) := by
      intro h
      exact hni (by simp [h])
    rw [processLocals_cons_of writesOk fname st _ _ ls (processLocal_writesOk_eq fname st a j v)]
    refine ih _ hni2 ?_
    show (localCache fname st a j).lookup i = none
    unfold localCache
    cases hcj : st.cache.lookup j with
    | some k => exact hc
    | none =>
      refine lookup_append_none i _ _ hc ?_
      have hb : (i == j) = false := beq_eq_false_iff_ne.mpr hij
      simp [List.lookup, hb]

/-- Helper: frame processing under the no-failure oracle is locals processing after two header chunks. -/
theorem processFrame_writesOk (st : DumpState) (f : PyFrame) :
    processFrame writesOk st f =
      processLocals writesOk f.name
        { st with wcount := st.wcount + 1 + 1,
                  out := (st.out ++ ["\n----\n\n"]) ++
                    ["Frame " ++ f.name ++ " in " ++ f.filename ++ " at line " ++ natToDec f.lineno ++ "\n"] }
        f.locals := rfl

/-- Header chunk of one frame. -/
def headerChunk (f : PyFrame) : String :=
  "Frame " ++ f.name ++ " in " ++ f.filename ++ " at line " ++ natToDec f.lineno ++ "\n"

/-- Chunks the dump writes per frame: a separator, a header and two per local variable. -/
def chunkCount (fs : List PyFrame) : Nat := (fs.map (fun f => 2 + 2 * f.locals.length)).sum

/-- Identities of all local values of a frame list, in processing order. -/
def framesIds (fs : List PyFrame) : List Nat :=
  (fs.map (fun f => f.locals.map (fun l => l.2.1))).flatten

/-- Helper: the result pair of one frame under the no-failure oracle. -/
theorem processFrame_writesOk_pair (st : DumpState) (f : PyFrame) :
    processFrame writesOk st f =
      ((processLocals writesOk f.name
          { st with wcount := st.wcount + 1 + 1,
                    out := (st.out ++ ["\n----\n\n"]) ++ [headerChunk f] } f.locals).1, true) := by
  rw [processFrame_writesOk]
  show processLocals writesOk f.name
      { st with wcount := st.wcount + 1 + 1,
                out := (st.out ++ ["\n----\n\n"]) ++ [headerChunk f] } f.locals = _
  have hok := processLocals_writesOk_ok f.name f.locals
    { st with wcount := st.wcount + 1 + 1, out := (st.out ++ ["\n----\n\n"]) ++ [headerChunk f] }
  rcases hp : processLocals writesOk f.name
    { st with wcount := st.wcount + 1 + 1, out := (st.out ++ ["\n----\n\n"]) ++ [headerChunk f] }
    f.locals with ⟨d, ok⟩
  rw [hp] at hok
  dsimp only at hok
  rw [hok]

/-- Helper: the cons step of frames processing under a successful head. -/
theorem processFrames_cons_of (wf : WriteOracle) (st st2 : DumpState) (f : PyFrame)
    (fs : List PyFrame) (h : processFrame wf st f = (st2, true)) :
    processFrames wf st (f :: fs) = processFrames wf st2 fs := by
  conv_lhs => unfold processFrames
  rw [h]
  rfl

/-- Helper: frames processing always succeeds under the no-failure oracle. -/
theorem processFrames_writesOk_ok :
    ∀ (fs : List PyFrame) (st : DumpState), (processFrames writesOk st fs).2 = true := by
  intro fs
  induction fs with
  | nil => intro st; rfl
  | cons f fs ih =>
    intro st
    rw [processFrames_cons_of writesOk st _ f fs (processFrame_writesOk_pair st f)]
    exact ih _

/-- Helper: each frame contributes its separator, header and locals chunks. -/
theorem processFrames_writesOk_len :
    ∀ (fs : List PyFrame) (st : DumpState),
      (processFrames writesOk st fs).1.out.length = st.out.length + chunkCount fs := by
  intro fs
  induction fs with
  | nil => intro st; simp [processFrames, chunkCount]
  | cons f fs ih =>
    intro st
    rw [processFrames_cons_of writesOk st _ f fs (processFrame_writesOk_pair st f)]
    rw [ih, processLocals_writesOk_len]
    simp [chunkCount]
    omega

/-- Helper: chunks already written survive further frames processing. -/
theorem processFrames_writesOk_mono (x : String) :
    ∀ (fs : List PyFrame) (st : DumpState),
      x ∈ st.out → x ∈ (processFrames writesOk st fs).1.out := by
  intro fs
  induction fs with
  | nil => intro st hx; exact hx
  | cons f fs ih =>
    intro st hx
    rw [processFrames_cons_of writesOk st _ f fs (processFrame_writesOk_pair st f)]
    refine ih _ (processLocals_writesOk_mono f.name x f.locals _ ?_)
    simp [hx]

/-- Helper: frames processing splits over list append under the no-failure oracle. -/
theorem processFrames_writesOk_append :
    ∀ (fs1 fs2 : List PyFrame) (st : DumpState),
      processFrames writesOk st (fs1 ++ fs2) =
        processFrames writesOk (processFrames writesOk st fs1).1 fs2 := by
  intro fs1
  induction fs1 with
  | nil => intro fs2 st; rfl
  | cons f fs1 ih =>
    intro fs2 st
    rw [List.cons_append,
      processFrames_cons_of writesOk st _ f (fs1 ++ fs2) (processFrame_writesOk_pair st f),
      processFrames_cons_of writesOk st _ f fs1 (processFrame_writesOk_pair st f)]
    exact ih fs2 _

/-- Helper: an identity absent from all frames and the cache stays out of the cache. -/
theorem processFrames_writesOk_lookup_none (i : Nat) :
    ∀ (fs : List PyFrame) (st : DumpState),
      i ∉ framesIds fs → st.cache.lookup i = none →
      (processFrames writesOk st fs).1.cache.lookup i = none := by
  intro fs
  induction fs with
  | nil => intro st _ hc; exact hc
  | cons f fs ih =>
    intro st hni hc
    have hni1 : i ∉ f.locals.map (fun l => l.2.1) := by
      intro h
      exact hni (by simp [framesIds, h])
    have hni2 : i ∉ framesIds fs := by
      intro h
      refine hni ?_
      simp only [framesIds, List.map_cons, List.flatten_cons, List.mem_append]
      right
      simpa [framesIds] using h
    rw [processFrames_cons_of writesOk st _ f fs (processFrame_writesOk_pair st f)]
    exact ih _ hni2 (processLocals_writesOk_lookup_none f.name i f.locals _ hni1 hc)

/-- Dump state just before the frame loop: the traceback text and the two section header chunks have been written. -/
def preFramesState (tb : String) : DumpState :=
  ⟨[], 3, [tb, "\n----------\n\n", "Stack frames (most recent call first):\n"]⟩

/-- Helper: under the no-failure oracle `formatException` completes, restores the patch flag and releases the lock, with the dump produced by the frame loop from the pre-frames state. -/
theorem formatExceptionM_writesOk (tb : String) (frames : List PyFrame) :
    formatExceptionM writesOk tb frames =
      ({ configPatched := false, lockHeld := false,
         dump := (processFrames writesOk (preFramesState tb) frames).1 }, true) := by
  have hraw : formatExceptionM writesOk tb frames =
      (match processFrames writesOk (preFramesState tb) frames with
       | (d3, ok3) =>
         if ok3 then ({ configPatched := false, lockHeld := false, dump := d3 }, true)
         else ({ configPatched := true, lockHeld := false, dump := d3 }, false)) := rfl
  rw [hraw]
  have hok := processFrames_writesOk_ok frames (preFramesState tb)
  rcases hp : processFrames writesOk (preFramesState tb) frames with ⟨d3, ok3⟩
  rw [hp] at hok
  dsimp only at hok ⊢
  rw [hok]
  rfl

/-- Helper: the state after a single-local frame body. -/
theorem processLocals_singleton (fname : String) (st : DumpState) (a : String) (i : Nat)
    (v : PyValue) :
    (processLocals writesOk fname st [(a, i, v)]).1 =
      { cache := localCache fname st a i, wcount := st.wcount + 1 + 1,
        out := st.out ++ ["\t" ++ rightAlign20 a ++ " =  ", localChunk st a i v] } := by
  rw [processLocals_cons_of writesOk fname st _ _ [] (processLocal_writesOk_eq fname st a i v)]
  rfl

/- ===== Claim C6 ===== -/

/-- C6 counterexample: the same object (identity 7) occurs as a local in two stack frames under the sensitive key password; the second occurrence renders as the filter marker, not as a back-reference naming the first occurrence's frame and variable -- redaction takes precedence over repeat detection. -/
theorem c6_counterexample :
    (formatExceptionM writesOk "tb"
        [⟨"f", "a.py", 1, [("password", 7, .obj "X" 7)]⟩,
         ⟨"g", "b.py", 2, [("password", 7, .obj "X" 7)]⟩]).1.dump.out =
      ["tb", "\n----------\n\n", "Stack frames (most recent call first):\n",
       "\n----\n\n", "Frame f in a.py at line 1\n",
       "\t            password =  ", "[Filtered]\n",
       "\n----\n\n", "Frame g in b.py at line 2\n",
       "\t            password =  ", "[Filtered]\n"] ∧
    ("[Filtered]\n" : String) ≠ "<same as prior " ++ pyReprStr "f.password" ++ ">\n" := by
  exact ⟨by decide, by decide⟩

/-- C6 amended: when the same object identity occurs as a local in two stack frames and the second variable's key does not match the sensitive pattern, the second occurrence renders as the back-reference marker naming the first occurrence's frame and variable, not as a reprint of the value; a sensitive key renders the filter marker instead (still never the value). -/
theorem c6_amended_backref_second_occurrence (n1 f1 n2 f2 a1 a2 : String) (l1 l2 i : Nat)
    (v1 v2 : PyValue) (r1 : String)
    (ha2 : filterMatch a2 = false)
    (hr1 : renderRepr (filtered_value (.str a1) v1) = .ok r1) :
    (formatExceptionM writesOk "tb"
        [⟨n1, f1, l1, [(a1, i, v1)]⟩, ⟨n2, f2, l2, [(a2, i, v2)]⟩]).1.dump.out =
      ["tb", "\n----------\n\n", "Stack frames (most recent call first):\n",
       "\n----\n\n", headerChunk ⟨n1, f1, l1, [(a1, i, v1)]⟩,
       "\t" ++ rightAlign20 a1 ++ " =  ", r1 ++ "\n",
       "\n----\n\n", headerChunk ⟨n2, f2, l2, [(a2, i, v2)]⟩,
       "\t" ++ rightAlign20 a2 ++ " =  ",
       "<same as prior " ++ pyReprStr (n1 ++ "." ++ a1) ++ ">" ++ "\n"] := by
  have hrep : renderRepr (filtered_value (.str a2) (.repeatValueIndicator (n1 ++ "." ++ a1))) =
      .ok ("<same as prior " ++ pyReprStr (n1 ++ "." ++ a1) ++ ">") := by
    simp [filtered_value, keyMatches, ha2, renderRepr]
  rw [formatExceptionM_writesOk]
  dsimp only
  rw [processFrames_cons_of writesOk _ _ _ _ (processFrame_writesOk_pair _ _),
      processFrames_cons_of writesOk _ _ _ _ (processFrame_writesOk_pair _ _)]
  simp only [processFrames]
  simp only [processLocals_singleton]
  unfold localChunk localCache
  simp [List.lookup, hr1, hrep, preFramesState]

/-- Witness for the amended C6 at two concrete frames sharing identity 7. -/
theorem c6_amended_backref_second_occurrence_witness :
    (formatExceptionM writesOk "tb"
        [⟨"f", "a.py", 1, [("x", 7, .int 5)]⟩, ⟨"g", "b.py", 2, [("y", 7, .int 5)]⟩]).1.dump.out =
      ["tb", "\n----------\n\n", "Stack frames (most recent call first):\n",
       "\n----\n\n", headerChunk ⟨"f", "a.py", 1, [("x", 7, .int 5)]⟩,
       "\t" ++ rightAlign20 "x" ++ " =  ", "5" ++ "\n",
       "\n----\n\n", headerChunk ⟨"g", "b.py", 2, [("y", 7, .int 5)]⟩,
       "\t" ++ rightAlign20 "y" ++ " =  ",
       "<same as prior " ++ pyReprStr ("f" ++ "." ++ "x") ++ ">" ++ "\n"] :=
  c6_amended_backref_second_occurrence "f" "a.py" "g" "b.py" "x" "y" 1 2 7 (.int 5) (.int 5) "5"
    (by decide) rfl

/- ===== Claim C7 ===== -/

/-- C7: a raising repr of one local value is replaced by the fixed placeholder while the dump continues -- the call completes normally, every frame and local still contributes its two chunks, and the placeholder chunk appears in the output.  The value's key must not match the sensitive pattern (else it is redacted before repr) and its identity must be fresh (else the repeat marker is rendered instead). -/
theorem c7_placeholder_and_continue (tb cls fl n attr : String) (oid idv ln : Nat)
    (fs1 fs2 : List PyFrame) (ls1 ls2 : List (String × Nat × PyValue))
    (ha : filterMatch attr = false)
    (hi : idv ∉ framesIds fs1 ++ ls1.map (fun l => l.2.1)) :
    (formatExceptionM writesOk tb
        (fs1 ++ ⟨n, fl, ln, ls1 ++ (attr, idv, .objBadRepr cls oid) :: ls2⟩ :: fs2)).2 = true ∧
    (formatExceptionM writesOk tb
        (fs1 ++ ⟨n, fl, ln, ls1 ++ (attr, idv, .objBadRepr cls oid) :: ls2⟩ :: fs2)).1.dump.out.length
      = 3 + chunkCount (fs1 ++ ⟨n, fl, ln, ls1 ++ (attr, idv, .objBadRepr cls oid) :: ls2⟩ :: fs2) ∧
    "<ERROR WHILE PRINTING VALUE>\n" ∈ (formatExceptionM writesOk tb
        (fs1 ++ ⟨n, fl, ln, ls1 ++ (attr, idv, .objBadRepr cls oid) :: ls2⟩ :: fs2)).1.dump.out := by
  have hi1 : idv ∉ framesIds fs1 := fun h => hi (List.mem_append_left _ h)
  have hi2 : idv ∉ ls1.map (fun l => l.2.1) := fun h => hi (List.mem_append_right _ h)
  refine ⟨by rw [formatExceptionM_writesOk], ?_, ?_⟩
  · rw [formatExceptionM_writesOk]
    dsimp only
    rw [processFrames_writesOk_len]
    rfl
  · rw [formatExceptionM_writesOk]
    dsimp only
    rw [processFrames_writesOk_append,
      processFrames_cons_of writesOk _ _ _ _ (processFrame_writesOk_pair _ _)]
    refine processFrames_writesOk_mono _ fs2 _ ?_
    dsimp only
    rw [processLocals_writesOk_append]
    rw [processLocals_cons_of writesOk n _ _ _ ls2
      (processLocal_writesOk_eq n _ attr idv (.objBadRepr cls oid))]
    refine processLocals_writesOk_mono n _ ls2 _ ?_
    have hcache0 : (preFramesState tb).cache.lookup idv = none := rfl
    have hcache1 := processFrames_writesOk_lookup_none idv fs1 (preFramesState tb) hi1 hcache0
    have hcache2 := processLocals_writesOk_lookup_none n idv ls1
      { (processFrames writesOk (preFramesState tb) fs1).1 with
        wcount := (processFrames writesOk (preFramesState tb) fs1).1.wcount + 1 + 1,
        out := ((processFrames writesOk (preFramesState tb) fs1).1.out ++ ["\n----\n\n"]) ++
          [headerChunk ⟨n, fl, ln, ls1 ++ (attr, idv, .objBadRepr cls oid) :: ls2⟩] }
      hi2 hcache1
    have hchunk : localChunk
        (processLocals writesOk n
          { (processFrames writesOk (preFramesState tb) fs1).1 with
            wcount := (processFrames writesOk (preFramesState tb) fs1).1.wcount + 1 + 1,
            out := ((processFrames writesOk (preFramesState tb) fs1).1.out ++ ["\n----\n\n"]) ++
              [headerChunk ⟨n, fl, ln, ls1 ++ (attr, idv, .objBadRepr cls oid) :: ls2⟩] }
          ls1).1
        attr idv (.objBadRepr cls oid) = "<ERROR WHILE PRINTING VALUE>\n" := by
      unfold localChunk
      rw [hcache2]
      simp [filtered_value, keyMatches, ha, renderRepr]
    simp only [hchunk]
    simp

/-- Witness for C7 at one concrete frame whose single local value raises on repr. -/
theorem c7_placeholder_and_continue_witness :
    (formatExceptionM writesOk "tb"
        ([] ++ ⟨"f", "a.py", 3, [] ++ ("x", 9, .objBadRepr "B" 9) :: []⟩ :: [])).2 = true ∧
    (formatExceptionM writesOk "tb"
        ([] ++ ⟨"f", "a.py", 3, [] ++ ("x", 9, .objBadRepr "B" 9) :: []⟩ :: [])).1.dump.out.length
      = 3 + chunkCount ([] ++ ⟨"f", "a.py", 3, [] ++ ("x", 9, .objBadRepr "B" 9) :: []⟩ :: []) ∧
    "<ERROR WHILE PRINTING VALUE>\n" ∈ (formatExceptionM writesOk "tb"
        ([] ++ ⟨"f", "a.py", 3, [] ++ ("x", 9, .objBadRepr "B" 9) :: []⟩ :: [])).1.dump.out :=
  c7_placeholder_and_continue "tb" "B" "a.py" "f" "x" 9 9 3 [] [] [] [] (by decide) (by decide)

/- ===== Digit system lemmas for the identifier layer ===== -/

/-- Helper: the digit fold absorbs one appended digit character. -/
theorem foldDigits_append_digit (B : Nat) (val : Char → Option Nat) (cs : List Char) (c : Char)
    (d m : Nat) (hv : val c = some d) (hf : foldDigits B val cs = some m) :
    foldDigits B val (cs ++ [c]) = some (m * B + d) := by
  cases cs with
  | nil => simp [foldDigits] at hf
  | cons c0 cs0 =>
    have h1 : foldDigits B val ((c0 :: cs0) ++ [c]) =
        List.foldl (fun acc cc => acc.bind (fun a => (val cc).map (fun dd => a * B + dd)))
          (some 0) ((c0 :: cs0) ++ [c]) := rfl
    have h2 : foldDigits B val (c0 :: cs0) =
        List.foldl (fun acc cc => acc.bind (fun a => (val cc).map (fun dd => a * B + dd)))
          (some 0) (c0 :: cs0) := rfl
    rw [h2] at hf
    rw [h1, List.foldl_append, hf]
    simp [hv]

/-- Helper: folding back the variable-width digit expansion recovers the number. -/
theorem foldDigits_digitsAux (B : Nat) (digitC : Nat → Char) (val : Char → Option Nat)
    (hB : 2 ≤ B) (hval : ∀ d, d < B → val (digitC d) = some d) :
    ∀ (f n : Nat), n < f → foldDigits B val (digitsAux B digitC f n) = some n := by
  intro f
  induction f with
  | zero => intro n h; exact absurd h (Nat.not_lt_zero n)
  | succ f ih =>
    intro n h
    unfold digitsAux
    by_cases hn : n < B
    · rw [if_pos hn]
      show foldDigits B val [digitC n] = some n
      unfold foldDigits
      simp [hval n hn]
    · rw [if_neg hn]
      have hpos : 0 < n := by omega
      have hdlt : n / B < n := Nat.div_lt_self hpos (by omega)
      have hdf : n / B < f := by omega
      rw [foldDigits_append_digit B val _ _ (n % B) (n / B)
        (hval (n % B) (Nat.mod_lt n (by omega))) (ih (n / B) hdf)]
      have hnm : n / B * B + n % B = n := by
        rw [Nat.mul_comm]
        exact Nat.div_add_mod n B
      rw [hnm]

/-- Helper: the fixed-width digit expansion has the demanded width. -/
theorem digitsFix_length (B : Nat) (digitC : Nat → Char) :
    ∀ (k n : Nat), (digitsFix B digitC k n).length = k := by
  intro k
  induction k with
  | zero => intro n; rfl
  | succ k ih =>
    intro n
    unfold digitsFix
    simp [ih]

/-- Helper: folding back the fixed-width digit expansion recovers the number. -/
theorem foldDigits_digitsFix (B : Nat) (digitC : Nat → Char) (val : Char → Option Nat)
    (hB : 2 ≤ B) (hval : ∀ d, d < B → val (digitC d) = some d) :
    ∀ (k n : Nat), 0 < k → n < B ^ k → foldDigits B val (digitsFix B digitC k n) = some n := by
  intro k
  induction k with
  | zero => intro n h; exact absurd h (by simp)
  | succ k ih =>
    intro n _ hn
    unfold digitsFix
    cases Nat.eq_zero_or_pos k with
    | inl hk0 =>
      subst hk0
      have hnB : n < B := by simpa using hn
      have hmod : n % B = n := Nat.mod_eq_of_lt hnB
      show foldDigits B val (digitsFix B digitC 0 (n / B) ++ [digitC (n % B)]) = some n
      unfold digitsFix
      rw [List.nil_append]
      unfold foldDigits
      rw [hmod]
      simp [hval n hnB]
    | inr hkpos =>
      have hdiv : n / B < B ^ k := by
        rw [Nat.div_lt_iff_lt_mul (by omega : 0 < B)]
        calc n < B ^ (k + 1) := hn
        _ = B ^ k * B := by ring
      rw [foldDigits_append_digit B val _ _ (n % B) (n / B)
        (hval (n % B) (Nat.mod_lt n (by omega))) (ih (n / B) hkpos hdiv)]
      have hnm : n / B * B + n % B = n := by
        rw [Nat.mul_comm]
        exact Nat.div_add_mod n B
      rw [hnm]

/-- Helper: every character of a variable-width expansion is a digit character of the base. -/
theorem digitsAux_chars (B : Nat) (digitC : Nat → Char) (P : Char → Prop)
    (hP : ∀ d, d < B → P (digitC d)) (hB : 0 < B) :
    ∀ (f n : Nat) (c : Char), c ∈ digitsAux B digitC f n → P c := by
  intro f
  induction f with
  | zero => intro n c h; simp [digitsAux] at h
  | succ f ih =>
    intro n c h
    unfold digitsAux at h
    by_cases hn : n < B
    · rw [if_pos hn] at h
      simp at h
      rw [h]
      exact hP n hn
    · rw [if_neg hn] at h
      rcases List.mem_append.mp h with h1 | h2
      · exact ih (n / B) c h1
      · simp at h2
        rw [h2]
        exact hP (n % B) (Nat.mod_lt n (by omega))

/-- Helper: every character of a fixed-width expansion is a digit character of the base. -/
theorem digitsFix_chars (B : Nat) (digitC : Nat → Char) (P : Char → Prop)
    (hP : ∀ d, d < B → P (digitC d)) (hB : 0 < B) :
    ∀ (k n : Nat) (c : Char), c ∈ digitsFix B digitC k n → P c := by
  intro k
  induction k with
  | zero => intro n c h; simp [digitsFix] at h
  | succ k ih =>
    intro n c h
    unfold digitsFix at h
    rcases List.mem_append.mp h with h1 | h2
    · exact ih (n / B) c h1
    · simp at h2
      rw [h2]
      exact hP (n % B) (Nat.mod_lt n (by omega))

/-- Helper: a take-while passes over a block that satisfies the predicate. -/
theorem takeWhile_append_all (p : Char → Bool) :
    ∀ (l1 l2 : List Char), (∀ c ∈ l1, p c = true) →
      (l1 ++ l2).takeWhile p = l1 ++ l2.takeWhile p := by
  intro l1
  induction l1 with
  | nil => intro l2 _; rfl
  | cons c l1 ih =>
    intro l2 hall
    have hc : p c = true := hall c (by simp)
    simp only [List.cons_append, List.takeWhile_cons, hc, if_true]
    rw [ih l2 (fun d hd => hall d (by simp [hd]))]

/- ===== Claim C9 ===== -/

/-- Helper: decimal digit characters decode to their value. -/
theorem decVal_decChar : ∀ d, d < 10 → decVal (decChar d) = some d := by decide

/-- Helper: hexadecimal digit characters decode to their value. -/
theorem hexVal_hexChar : ∀ d, d < 16 → hexVal (hexChar d) = some d := by decide

/-- Helper: base58 digit characters decode to their value. -/
theorem b58Val_b58Char : ∀ d, d < 58 → b58Val (b58Char d) = some d := by decide

/-- Helper: no decimal digit character is a hyphen. -/
theorem decChar_ne_dash : ∀ d, d < 10 → decChar d ≠ '-' := by decide

/-- Helper: no hexadecimal digit character is a hyphen. -/
theorem hexChar_ne_dash : ∀ d, d < 16 → hexChar d ≠ '-' := by decide

/-- Helper: no base58 digit character is a hyphen. -/
theorem b58Char_ne_dash : ∀ d, d < 58 → b58Char d ≠ '-' := by decide

/-- Helper: a consumed block of known length splits an append exactly. -/
theorem takeN_exact (n : Nat) (a b : List Char) (h : a.length = n) :
    takeN n (a ++ b) = some (a, b) := by
  subst h
  unfold takeN
  rw [if_neg (by simp)]
  rw [List.take_left, List.drop_left]

/-- Helper: the characters of the decimal rendering of a number are never hyphens. -/
theorem natToDec_ne_dash (n : Nat) : ∀ c ∈ (natToDec n).data, (c ≠ '-' : Bool) = true := by
  intro c hc
  have := digitsAux_chars 10 decChar (fun c => c ≠ '-') decChar_ne_dash (by omega) (n + 1) n c hc
  simpa using this

/-- Helper: the characters of the hex rendering of a UUID are never hyphens. -/
theorem uuidHex_ne_dash (u : Nat) : ∀ c ∈ (uuidHex u).data, (c ≠ '-' : Bool) = true := by
  intro c hc
  have := digitsFix_chars 16 hexChar (fun c => c ≠ '-') hexChar_ne_dash (by omega) 32 u c hc
  simpa using this

/-- Helper: the characters of the base58 rendering are never hyphens. -/
theorem encodeB58_ne_dash (u : Nat) : ∀ c ∈ (encodeB58 u).data, (c ≠ '-' : Bool) = true := by
  intro c hc
  have := digitsAux_chars 58 b58Char (fun c => c ≠ '-') b58Char_ne_dash (by omega) (u + 1) u c hc
  simpa using this

/-- Helper: reassembling the five hex groups of the dashed form gives back the digits. -/
theorem reassemble_hex (h : List Char) :
    ((((h.take 8 ++ (h.drop 8).take 4) ++ (h.drop 12).take 4) ++ (h.drop 16).take 4) ++ h.drop 20)
      = h := by
  have e8 : h.take 8 ++ h.drop 8 = h := List.take_append_drop 8 h
  have e12 : (h.drop 8).take 4 ++ h.drop 12 = h.drop 8 := by
    have := List.take_append_drop 4 (h.drop 8)
    rwa [List.drop_drop] at this
  have e16 : (h.drop 12).take 4 ++ h.drop 16 = h.drop 12 := by
    have := List.take_append_drop 4 (h.drop 12)
    rwa [List.drop_drop] at this
  have e20 : (h.drop 16).take 4 ++ h.drop 20 = h.drop 16 := by
    have := List.take_append_drop 4 (h.drop 16)
    rwa [List.drop_drop] at this
  calc ((((h.take 8 ++ (h.drop 8).take 4) ++ (h.drop 12).take 4) ++ (h.drop 16).take 4) ++ h.drop 20)
      = h.take 8 ++ ((h.drop 8).take 4 ++ ((h.drop 12).take 4 ++ ((h.drop 16).take 4 ++ h.drop 20))) := by
        simp [List.append_assoc]
    _ = h := by rw [e20, e16, e12, e8]

/-- C9: rendering a compound identifier and parsing it back recovers the primary key, for integer keys with a name, UUID hex keys with a name, the dashless and dashed UUID forms, and the compact base58 form joined after the name (spec-modelled identifier layer). -/
theorem c9_compound_identifier_roundtrip (i u : Nat) (name : String) (hu : u < 16 ^ 32) :
    parseUrlIdName (urlIdName i name) = some i ∧
    parseUuidHexName (urlIdNameUuid u name) = some u ∧
    parseUuidKey (uuidHex u) = some u ∧
    parseUuidKey (uuidDashed u) = some u ∧
    parseNameB58 (urlNameB58 u name) = some u := by
  have hexlen : (digitsFix 16 hexChar 32 u).length = 32 := digitsFix_length 16 hexChar 32 u
  have hexfold : foldDigits 16 hexVal (digitsFix 16 hexChar 32 u) = some u :=
    foldDigits_digitsFix 16 hexChar hexVal (by omega) hexVal_hexChar 32 u (by omega) hu
  refine ⟨?_, ?_, ?_, ?_, ?_⟩
  · show parseUrlIdName (natToDec i ++ "-" ++ name) = some i
    unfold parseUrlIdName
    have hdata : (natToDec i ++ "-" ++ name).data = (natToDec i).data ++ ('-' :: name.data) := by
      simp [String.data_append]
    rw [hdata, takeWhile_append_all _ _ _ (natToDec_ne_dash i)]
    have hstop : List.takeWhile (fun c => (c ≠ '-' : Bool)) ('-' :: name.data) = [] := by
      simp [List.takeWhile_cons]
    rw [hstop, List.append_nil]
    show foldDigits 10 decVal (digitsAux 10 decChar (i + 1) i) = some i
    exact foldDigits_digitsAux 10 decChar decVal (by omega) decVal_decChar (i + 1) i (by omega)
  · show parseUuidHexName (uuidHex u ++ "-" ++ name) = some u
    unfold parseUuidHexName
    have hdata : (uuidHex u ++ "-" ++ name).data = (uuidHex u).data ++ ('-' :: name.data) := by
      simp [String.data_append]
    rw [hdata, takeWhile_append_all _ _ _ (uuidHex_ne_dash u)]
    have hstop : List.takeWhile (fun c => (c ≠ '-' : Bool)) ('-' :: name.data) = [] := by
      simp [List.takeWhile_cons]
    rw [hstop, List.append_nil]
    show parseUuidKey (String.mk (digitsFix 16 hexChar 32 u)) = some u
    unfold parseUuidKey
    rw [if_pos (by simp [hexlen])]
    exact hexfold
  · unfold parseUuidKey
    show (if ((uuidHex u).data.length == 32) = true then foldDigits 16 hexVal (uuidHex u).data
      else _) = some u
    rw [if_pos (by simp [uuidHex, hexlen])]
    exact hexfold
  · obtain ⟨h32, hgen⟩ : ∃ l, digitsFix 16 hexChar 32 u = l := ⟨_, rfl⟩
    have hlen32 : h32.length = 32 := by rw [← hgen]; exact hexlen
    have hfold32 : foldDigits 16 hexVal h32 = some u := by rw [← hgen]; exact hexfold
    have hdata : (uuidDashed u).data =
        h32.take 8 ++ ('-' :: ((h32.drop 8).take 4 ++ ('-' :: ((h32.drop 12).take 4 ++
          ('-' :: ((h32.drop 16).take 4 ++ ('-' :: h32.drop 20))))))) := by
      unfold uuidDashed
      rw [hgen]
      simp [List.append_assoc]
    unfold parseUuidKey
    have hlen36 : (uuidDashed u).data.length = 36 := by
      rw [hdata]
      simp [hlen32]
    rw [if_neg (by simp [hlen36])]
    have hexp : ∀ r : List Char, expectDash ('-' :: r) = some r := fun r => rfl
    have hstrip : stripDashes (uuidDashed u).data = some h32 := by
      rw [hdata]
      unfold stripDashes
      rw [show h32.drop 20 = h32.drop 20 ++ [] from (List.append_nil _).symm]
      simp only [Option.bind_eq_bind, Option.some_bind,
        takeN_exact 8 _ _ (show (List.take 8 h32).length = 8 by simp [hlen32]),
        takeN_exact 4 _ _ (show (List.take 4 (List.drop 8 h32)).length = 4 by simp [hlen32]),
        takeN_exact 4 _ _ (show (List.take 4 (List.drop 12 h32)).length = 4 by simp [hlen32]),
        takeN_exact 4 _ _ (show (List.take 4 (List.drop 16 h32)).length = 4 by simp [hlen32]),
        takeN_exact 12 _ [] (show (List.drop 20 h32).length = 12 by simp [hlen32]),
        hexp, List.isEmpty_nil, if_true, Option.pure_def]
      rw [reassemble_hex]
    rw [hstrip]
    exact hfold32
  · show parseNameB58 (name ++ "-" ++ encodeB58 u) = some u
    unfold parseNameB58 afterLastDash
    have hdata : (name ++ "-" ++ encodeB58 u).data =
        (name.data ++ ['-']) ++ (encodeB58 u).data := by
      simp [String.data_append]
    rw [hdata, List.reverse_append, List.reverse_append]
    simp only [List.reverse_cons, List.reverse_nil, List.nil_append, List.singleton_append]
    rw [takeWhile_append_all _ _ _ ?hrev]
    case hrev =>
      intro c hc
      exact encodeB58_ne_dash u c (List.mem_reverse.mp hc)
    have hstop : List.takeWhile (fun c => (c ≠ '-' : Bool)) ('-' :: name.data.reverse) = [] := by
      simp [List.takeWhile_cons]
    rw [hstop, List.append_nil, List.reverse_reverse]
    show decodeB58 (String.mk (digitsAux 58 b58Char (u + 1) u)) = some u
    unfold decodeB58
    exact foldDigits_digitsAux 58 b58Char b58Val (by omega) b58Val_b58Char (u + 1) u (by omega)

/-- Witness for C9 at the test suite's UUID and the spec's integer example. -/
theorem c9_compound_identifier_roundtrip_witness :
    parseUrlIdName (urlIdName 42 "report") = some 42 ∧
    parseUuidHexName (urlIdNameUuid 155299172065519023434915048975435338588 "report")
      = some 155299172065519023434915048975435338588 ∧
    parseUuidKey (uuidHex 155299172065519023434915048975435338588)
      = some 155299172065519023434915048975435338588 ∧
    parseUuidKey (uuidDashed 155299172065519023434915048975435338588)
      = some 155299172065519023434915048975435338588 ∧
    parseNameB58 (urlNameB58 155299172065519023434915048975435338588 "report")
      = some 155299172065519023434915048975435338588 :=
  c9_compound_identifier_roundtrip 42 155299172065519023434915048975435338588 "report" (by decide)

/- ===== Claim C8: segment analysis of the telegram message =====

The truncation step of `TelegramHandler.emit` counts pre tags with
`text.count`.  To settle the markup-balance claim, the message built by
`buildTelegramText` is decomposed into segments: escaped text (which
contains no angle bracket) and the four literal tags.  Counting is then
tracked through any character-level prefix of the flattening. -/

/-- Building blocks of the telegram message: escaped text free of angle brackets, and the four literal markup tags. -/
inductive Seg where
  | safe : String → Seg
  | bOpen : Seg
  | bClose : Seg
  | preOpen : Seg
  | preClose : Seg

/-- Characters of one segment. -/
def segChars : Seg → List Char
  | .safe s => s.data
  | .bOpen => "<b>".data
  | .bClose => "</b>".data
  | .preOpen => "<pre>".data
  | .preClose => "</pre>".data

/-- Characters of a segment list. -/
def flattenSegs (l : List Seg) : List Char := (l.map segChars).flatten

/-- Scan of a segment list; `b` tells whether a pre element is open.  The scan fails on a safe chunk containing an angle bracket and on mismatched pre tags, and otherwise returns the final state. -/
def segsSt : Bool → List Seg → Option Bool
  | b, [] => some b
  | b, .safe s :: r => if '<' ∈ s.data then none else segsSt b r
  | b, .bOpen :: r => segsSt b r
  | b, .bClose :: r => segsSt b r
  | b, .preOpen :: r => if b then none else segsSt true r
  | b, .preClose :: r => if b then segsSt false r else none

/-- Helper: flattening a cons. -/
theorem flattenSegs_cons (seg : Seg) (l : List Seg) :
    flattenSegs (seg :: l) = segChars seg ++ flattenSegs l := by
  simp [flattenSegs]

/-- Helper: flattening an append. -/
theorem flattenSegs_append (l1 l2 : List Seg) :
    flattenSegs (l1 ++ l2) = flattenSegs l1 ++ flattenSegs l2 := by
  simp [flattenSegs]

/-- Helper: a pattern starting with an angle bracket never begins inside bracket-free text. -/
theorem countPat_append_no_lt (q : List Char) :
    ∀ (s t : List Char), '<' ∉ s → countPat ('<' :: q) (s ++ t) = countPat ('<' :: q) t := by
  intro s
  induction s with
  | nil => intro t _; rfl
  | cons c s ih =>
    intro t hs
    have hc : ('<' : Char) ≠ c := fun h => hs (by rw [h]; simp)
    have hs2 : '<' ∉ s := fun h => hs (by simp [h])
    have hpre : isPre ('<' :: q) (c :: (s ++ t)) = false := by
      unfold isPre
      simp [beq_eq_false_iff_ne.mpr hc]
    show countPatAux ('<' :: q) (c :: (s ++ t)) 0 = countPat ('<' :: q) t
    unfold countPatAux
    rw [hpre]
    simp only [Bool.false_eq_true, if_false]
    exact ih t hs2

/-- Helper: bracket-free text contains no tagged pattern at all. -/
theorem countPat_no_lt (q : List Char) (s : List Char) (hs : '<' ∉ s) :
    countPat ('<' :: q) s = 0 := by
  have h := countPat_append_no_lt q s [] hs
  rw [List.append_nil] at h
  exact h

/-- Helper: open-tag counting past an open tag. -/
theorem countPat_oo (t : List Char) :
    countPat "<pre>".data ("<pre>".data ++ t) = 1 + countPat "<pre>".data t := rfl

/-- Helper: open-tag counting past a close tag. -/
theorem countPat_oc (t : List Char) :
    countPat "<pre>".data ("</pre>".data ++ t) = countPat "<pre>".data t := rfl

/-- Helper: open-tag counting past a bold-open tag. -/
theorem countPat_ob (t : List Char) :
    countPat "<pre>".data ("<b>".data ++ t) = countPat "<pre>".data t := rfl

/-- Helper: open-tag counting past a bold-close tag. -/
theorem countPat_obc (t : List Char) :
    countPat "<pre>".data ("</b>".data ++ t) = countPat "<pre>".data t := rfl

/-- Helper: close-tag counting past a close tag. -/
theorem countPat_cc (t : List Char) :
    countPat "</pre>".data ("</pre>".data ++ t) = 1 + countPat "</pre>".data t := rfl

/-- Helper: close-tag counting past an open tag. -/
theorem countPat_co (t : List Char) :
    countPat "</pre>".data ("<pre>".data ++ t) = countPat "</pre>".data t := rfl

/-- Helper: close-tag counting past a bold-open tag. -/
theorem countPat_cb (t : List Char) :
    countPat "</pre>".data ("<b>".data ++ t) = countPat "</pre>".data t := rfl

/-- Helper: close-tag counting past a bold-close tag. -/
theorem countPat_cbc (t : List Char) :
    countPat "</pre>".data ("</b>".data ++ t) = countPat "</pre>".data t := rfl

/-- Helper: open-pattern data starts with an angle bracket. -/
theorem openTag_eq : "<pre>".data = '<' :: "pre>".data := rfl

/-- Helper: close-pattern data starts with an angle bracket. -/
theorem closeTag_eq : "</pre>".data = '<' :: "/pre>".data := rfl

/-- Helper: characters of a take are characters of the list. -/
theorem not_mem_take (c : Char) (n : Nat) (s : List Char) (h : c ∉ s) : c ∉ s.take n :=
  fun hmem => h (List.take_subset n s hmem)

/-- Prefix bound: in a wellformed segment flattening entered in state `b`, the close count of any character prefix never exceeds the open count plus the entry state, and the open count plus the entry state never exceeds the close count plus one. -/
theorem segs_prefix_counts :
    ∀ (segs : List Seg) (b e : Bool), segsSt b segs = some e → ∀ n,
      countPat "</pre>".data ((flattenSegs segs).take n) ≤
        countPat "<pre>".data ((flattenSegs segs).take n) + (if b then 1 else 0) ∧
      countPat "<pre>".data ((flattenSegs segs).take n) + (if b then 1 else 0) ≤
        countPat "</pre>".data ((flattenSegs segs).take n) + 1 := by
  intro segs
  induction segs with
  | nil =>
    intro b e hb n
    simp only [flattenSegs, List.map_nil, List.flatten_nil, List.take_nil]
    cases b <;> simp [countPat, countPatAux]
  | cons seg rest ih =>
    intro b e hb n
    rw [flattenSegs_cons, List.take_append_eq_append_take]
    cases seg with
    | safe s =>
      unfold segsSt at hb
      by_cases hlt : '<' ∈ s.data
      · rw [if_pos hlt] at hb
        exact absurd hb (by simp)
      · rw [if_neg hlt] at hb
        rw [show segChars (Seg.safe s) = s.data from rfl]
        have h1 : '<' ∉ s.data.take n := not_mem_take _ _ _ hlt
        rw [openTag_eq, closeTag_eq, countPat_append_no_lt _ _ _ h1,
          countPat_append_no_lt _ _ _ h1, ← openTag_eq, ← closeTag_eq]
        exact ih b e hb (n - s.data.length)
    | bOpen =>
      unfold segsSt at hb
      by_cases hn : 3 ≤ n
      · rw [show segChars Seg.bOpen = "<b>".data from rfl,
          List.take_of_length_le (show ("<b>".data).length ≤ n by simpa using hn),
          countPat_ob, countPat_cb]
        exact ih b e hb (n - ("<b>".data).length)
      · have hn3 : n < 3 := by omega
        rw [show segChars Seg.bOpen = "<b>".data from rfl]
        rw [show n - ("<b>".data).length = 0 by simp; omega, List.take_zero, List.append_nil]
        interval_cases n <;> cases b <;> decide
    | bClose =>
      unfold segsSt at hb
      by_cases hn : 4 ≤ n
      · rw [show segChars Seg.bClose = "</b>".data from rfl,
          List.take_of_length_le (show ("</b>".data).length ≤ n by simpa using hn),
          countPat_obc, countPat_cbc]
        exact ih b e hb (n - ("</b>".data).length)
      · have hn4 : n < 4 := by omega
        rw [show segChars Seg.bClose = "</b>".data from rfl]
        rw [show n - ("</b>".data).length = 0 by simp; omega, List.take_zero, List.append_nil]
        interval_cases n <;> cases b <;> decide
    | preOpen =>
      unfold segsSt at hb
      cases b with
      | true =>
        rw [if_pos rfl] at hb
        exact absurd hb (by simp)
      | false =>
        rw [if_neg (by simp)] at hb
        by_cases hn : 5 ≤ n
        · rw [show segChars Seg.preOpen = "<pre>".data from rfl,
            List.take_of_length_le (show ("<pre>".data).length ≤ n by simpa using hn),
            countPat_oo, countPat_co]
          have hih := ih true e hb (n - ("<pre>".data).length)
          norm_num at hih ⊢
          omega
        · have hn5 : n < 5 := by omega
          rw [show segChars Seg.preOpen = "<pre>".data from rfl]
          rw [show n - ("<pre>".data).length = 0 by simp; omega, List.take_zero, List.append_nil]
          interval_cases n <;> decide
    | preClose =>
      unfold segsSt at hb
      cases b with
      | false =>
        rw [if_neg (by simp)] at hb
        exact absurd hb (by simp)
      | true =>
        rw [if_pos rfl] at hb
        by_cases hn : 6 ≤ n
        · rw [show segChars Seg.preClose = "</pre>".data from rfl,
            List.take_of_length_le (show ("</pre>".data).length ≤ n by simpa using hn),
            countPat_oc, countPat_cc]
          have hih := ih false e hb (n - ("</pre>".data).length)
          norm_num at hih ⊢
          omega
        · have hn6 : n < 6 := by omega
          rw [show segChars Seg.preClose = "</pre>".data from rfl]
          rw [show n - ("</pre>".data).length = 0 by simp; omega, List.take_zero, List.append_nil]
          interval_cases n <;> decide

/-- Total balance: a wellformed segment flattening that ends outside a pre block has matching open and close tag totals, offset by the entry state. -/
theorem segs_total_counts :
    ∀ (segs : List Seg) (b : Bool), segsSt b segs = some false →
      countPat "<pre>".data (flattenSegs segs) + (if b then 1 else 0) =
        countPat "</pre>".data (flattenSegs segs) := by
  intro segs
  induction segs with
  | nil =>
    intro b hb
    have hbf : b = false := by simpa [segsSt] using hb
    subst hbf
    simp [flattenSegs, countPat, countPatAux]
  | cons seg rest ih =>
    intro b hb
    rw [flattenSegs_cons]
    cases seg with
    | safe s =>
      unfold segsSt at hb
      by_cases hlt : '<' ∈ s.data
      · rw [if_pos hlt] at hb
        exact absurd hb (by simp)
      · rw [if_neg hlt] at hb
        rw [show segChars (Seg.safe s) = s.data from rfl, openTag_eq, closeTag_eq,
          countPat_append_no_lt _ _ _ hlt, countPat_append_no_lt _ _ _ hlt,
          ← openTag_eq, ← closeTag_eq]
        exact ih b hb
    | bOpen =>
      unfold segsSt at hb
      rw [show segChars Seg.bOpen = "<b>".data from rfl, countPat_ob, countPat_cb]
      exact ih b hb
    | bClose =>
      unfold segsSt at hb
      rw [show segChars Seg.bClose = "</b>".data from rfl, countPat_obc, countPat_cbc]
      exact ih b hb
    | preOpen =>
      unfold segsSt at hb
      cases b with
      | true =>
        rw [if_pos rfl] at hb
        exact absurd hb (by simp)
      | false =>
        rw [if_neg (by simp)] at hb
        rw [show segChars Seg.preOpen = "<pre>".data from rfl, countPat_oo, countPat_co]
        have hih := ih true hb
        norm_num at hih ⊢
        omega
    | preClose =>
      unfold segsSt at hb
      cases b with
      | false =>
        rw [if_neg (by simp)] at hb
        exact absurd hb (by simp)
      | true =>
        rw [if_pos rfl] at hb
        rw [show segChars Seg.preClose = "</pre>".data from rfl, countPat_oc, countPat_cc]
        have hih := ih false hb
        norm_num at hih ⊢
        omega


/-- Appending a closing tag plus ellipsis to any prefix of a wellformed flattening leaves the open count unchanged and raises the close count by one. -/
theorem segs_take_close_ellipsis :
    ∀ (segs : List Seg) (b e : Bool), segsSt b segs = some e → ∀ n,
      countPat "<pre>".data ((flattenSegs segs).take n ++ "</pre>…".data) =
        countPat "<pre>".data ((flattenSegs segs).take n) ∧
      countPat "</pre>".data ((flattenSegs segs).take n ++ "</pre>…".data) =
        countPat "</pre>".data ((flattenSegs segs).take n) + 1 := by
  intro segs
  induction segs with
  | nil =>
    intro b e hb n
    simp only [flattenSegs, List.map_nil, List.flatten_nil, List.take_nil, List.nil_append]
    decide
  | cons seg rest ih =>
    intro b e hb n
    rw [flattenSegs_cons, List.take_append_eq_append_take]
    cases seg with
    | safe s =>
      unfold segsSt at hb
      by_cases hlt : '<' ∈ s.data
      · rw [if_pos hlt] at hb
        exact absurd hb (by simp)
      · rw [if_neg hlt] at hb
        rw [show segChars (Seg.safe s) = s.data from rfl]
        have h1 : '<' ∉ s.data.take n := not_mem_take _ _ _ hlt
        rw [List.append_assoc]
        rw [openTag_eq, closeTag_eq, countPat_append_no_lt _ _ _ h1,
          countPat_append_no_lt _ _ _ h1, countPat_append_no_lt _ _ _ h1,
          countPat_append_no_lt _ _ _ h1, ← openTag_eq, ← closeTag_eq]
        exact ih b e hb (n - s.data.length)
    | bOpen =>
      unfold segsSt at hb
      by_cases hn : 3 ≤ n
      · rw [show segChars Seg.bOpen = "<b>".data from rfl,
          List.take_of_length_le (show ("<b>".data).length ≤ n by simpa using hn),
          List.append_assoc, countPat_ob, countPat_ob, countPat_cb, countPat_cb]
        exact ih b e hb (n - ("<b>".data).length)
      · rw [show segChars Seg.bOpen = "<b>".data from rfl]
        rw [show n - ("<b>".data).length = 0 by simp; omega, List.take_zero, List.append_nil]
        interval_cases n <;> decide
    | bClose =>
      unfold segsSt at hb
      by_cases hn : 4 ≤ n
      · rw [show segChars Seg.bClose = "</b>".data from rfl,
          List.take_of_length_le (show ("</b>".data).length ≤ n by simpa using hn),
          List.append_assoc, countPat_obc, countPat_obc, countPat_cbc, countPat_cbc]
        exact ih b e hb (n - ("</b>".data).length)
      · rw [show segChars Seg.bClose = "</b>".data from rfl]
        rw [show n - ("</b>".data).length = 0 by simp; omega, List.take_zero, List.append_nil]
        interval_cases n <;> decide
    | preOpen =>
      unfold segsSt at hb
      cases b with
      | true =>
        rw [if_pos rfl] at hb
        exact absurd hb (by simp)
      | false =>
        rw [if_neg (by simp)] at hb
        by_cases hn : 5 ≤ n
        · rw [show segChars Seg.preOpen = "<pre>".data from rfl,
            List.take_of_length_le (show ("<pre>".data).length ≤ n by simpa using hn),
            List.append_assoc, countPat_oo, countPat_oo, countPat_co, countPat_co]
          have hih := ih true e hb (n - ("<pre>".data).length)
          obtain ⟨hA, hB⟩ := hih
          constructor
          · omega
          · omega
        · rw [show segChars Seg.preOpen = "<pre>".data from rfl]
          rw [show n - ("<pre>".data).length = 0 by simp; omega, List.take_zero, List.append_nil]
          interval_cases n <;> decide
    | preClose =>
      unfold segsSt at hb
      cases b with
      | false =>
        rw [if_neg (by simp)] at hb
        exact absurd hb (by simp)
      | true =>
        rw [if_pos rfl] at hb
        by_cases hn : 6 ≤ n
        · rw [show segChars Seg.preClose = "</pre>".data from rfl,
            List.take_of_length_le (show ("</pre>".data).length ≤ n by simpa using hn),
            List.append_assoc, countPat_oc, countPat_oc, countPat_cc, countPat_cc]
          have hih := ih false e hb (n - ("</pre>".data).length)
          obtain ⟨hA, hB⟩ := hih
          constructor
          · omega
          · omega
        · rw [show segChars Seg.preClose = "</pre>".data from rfl]
          rw [show n - ("</pre>".data).length = 0 by simp; omega, List.take_zero, List.append_nil]
          interval_cases n <;> decide

/-- Appending a lone ellipsis to any prefix of a wellformed flattening leaves both tag counts unchanged. -/
theorem segs_take_ellipsis :
    ∀ (segs : List Seg) (b e : Bool), segsSt b segs = some e → ∀ n,
      countPat "<pre>".data ((flattenSegs segs).take n ++ "…".data) =
        countPat "<pre>".data ((flattenSegs segs).take n) ∧
      countPat "</pre>".data ((flattenSegs segs).take n ++ "…".data) =
        countPat "</pre>".data ((flattenSegs segs).take n) := by
  intro segs
  induction segs with
  | nil =>
    intro b e hb n
    simp only [flattenSegs, List.map_nil, List.flatten_nil, List.take_nil, List.nil_append]
    decide
  | cons seg rest ih =>
    intro b e hb n
    rw [flattenSegs_cons, List.take_append_eq_append_take]
    cases seg with
    | safe s =>
      unfold segsSt at hb
      by_cases hlt : '<' ∈ s.data
      · rw [if_pos hlt] at hb
        exact absurd hb (by simp)
      · rw [if_neg hlt] at hb
        rw [show segChars (Seg.safe s) = s.data from rfl]
        have h1 : '<' ∉ s.data.take n := not_mem_take _ _ _ hlt
        rw [List.append_assoc]
        rw [openTag_eq, closeTag_eq, countPat_append_no_lt _ _ _ h1,
          countPat_append_no_lt _ _ _ h1, countPat_append_no_lt _ _ _ h1,
          countPat_append_no_lt _ _ _ h1, ← openTag_eq, ← closeTag_eq]
        exact ih b e hb (n - s.data.length)
    | bOpen =>
      unfold segsSt at hb
      by_cases hn : 3 ≤ n
      · rw [show segChars Seg.bOpen = "<b>".data from rfl,
          List.take_of_length_le (show ("<b>".data).length ≤ n by simpa using hn),
          List.append_assoc, countPat_ob, countPat_ob, countPat_cb, countPat_cb]
        exact ih b e hb (n - ("<b>".data).length)
      · rw [show segChars Seg.bOpen = "<b>".data from rfl]
        rw [show n - ("<b>".data).length = 0 by simp; omega, List.take_zero, List.append_nil]
        interval_cases n <;> decide
    | bClose =>
      unfold segsSt at hb
      by_cases hn : 4 ≤ n
      · rw [show segChars Seg.bClose = "</b>".data from rfl,
          List.take_of_length_le (show ("</b>".data).length ≤ n by simpa using hn),
          List.append_assoc, countPat_obc, countPat_obc, countPat_cbc, countPat_cbc]
        exact ih b e hb (n - ("</b>".data).length)
      · rw [show segChars Seg.bClose = "</b>".data from rfl]
        rw [show n - ("</b>".data).length = 0 by simp; omega, List.take_zero, List.append_nil]
        interval_cases n <;> decide
    | preOpen =>
      unfold segsSt at hb
      cases b with
      | true =>
        rw [if_pos rfl] at hb
        exact absurd hb (by simp)
      | false =>
        rw [if_neg (by simp)] at hb
        by_cases hn : 5 ≤ n
        · rw [show segChars Seg.preOpen = "<pre>".data from rfl,
            List.take_of_length_le (show ("<pre>".data).length ≤ n by simpa using hn),
            List.append_assoc, countPat_oo, countPat_oo, countPat_co, countPat_co]
          have hih := ih true e hb (n - ("<pre>".data).length)
          obtain ⟨hA, hB⟩ := hih
          exact ⟨by omega, hB⟩
        · rw [show segChars Seg.preOpen = "<pre>".data from rfl]
          rw [show n - ("<pre>".data).length = 0 by simp; omega, List.take_zero, List.append_nil]
          interval_cases n <;> decide
    | preClose =>
      unfold segsSt at hb
      cases b with
      | false =>
        rw [if_neg (by simp)] at hb
        exact absurd hb (by simp)
      | true =>
        rw [if_pos rfl] at hb
        by_cases hn : 6 ≤ n
        · rw [show segChars Seg.preClose = "</pre>".data from rfl,
            List.take_of_length_le (show ("</pre>".data).length ≤ n by simpa using hn),
            List.append_assoc, countPat_oc, countPat_oc, countPat_cc, countPat_cc]
          have hih := ih false e hb (n - ("</pre>".data).length)
          obtain ⟨hA, hB⟩ := hih
          exact ⟨hA, by omega⟩
        · rw [show segChars Seg.preClose = "</pre>".data from rfl]
          rw [show n - ("</pre>".data).length = 0 by simp; omega, List.take_zero, List.append_nil]
          interval_cases n <;> decide

/-- The escape of a single character never yields an angle bracket. -/
theorem escapeChar_no_lt (c : Char) : '<' ∉ escapeChar c := by
  unfold escapeChar
  split
  · decide
  · split
    · decide
    · split
      · decide
      · rename_i h1 h2 h3
        simp only [List.mem_singleton]
        intro he
        exact h2 (beq_iff_eq.mpr he.symm)

/-- Escaped text contains no angle bracket. -/
theorem escapeHtml_no_lt (s : String) : '<' ∉ (escapeHtml s).data := by
  show '<' ∉ (s.data.map escapeChar).flatten
  intro h
  rw [List.mem_flatten] at h
  obtain ⟨l, hl, hc⟩ := h
  rw [List.mem_map] at hl
  obtain ⟨c, _, rfl⟩ := hl
  exact escapeChar_no_lt c hc

/-- A stack-line head chunk contains no angle bracket. -/
theorem safe_line_no_lt (s : String) : '<' ∉ (escapeHtml s ++ "\n").data := by
  rw [String.data_append]
  intro h
  rcases List.mem_append.mp h with h1 | h2
  · exact escapeHtml_no_lt s h1
  · exact absurd h2 (by decide)

/-- The segment scan distributes over concatenation of segment lists. -/
theorem segsSt_append : ∀ (l1 l2 : List Seg) (b : Bool),
    segsSt b (l1 ++ l2) = (segsSt b l1).bind (fun m => segsSt m l2) := by
  intro l1
  induction l1 with
  | nil =>
    intro l2 b
    rfl
  | cons seg rest ih =>
    intro l2 b
    cases seg with
    | safe s =>
      rw [List.cons_append]
      show (if '<' ∈ s.data then none else segsSt b (rest ++ l2)) =
        ((if '<' ∈ s.data then none else segsSt b rest).bind fun m => segsSt m l2)
      by_cases h : '<' ∈ s.data
      · rw [if_pos h, if_pos h]
        rfl
      · rw [if_neg h, if_neg h]
        exact ih l2 b
    | bOpen =>
      rw [List.cons_append]
      show segsSt b (rest ++ l2) = ((segsSt b rest).bind fun m => segsSt m l2)
      exact ih l2 b
    | bClose =>
      rw [List.cons_append]
      show segsSt b (rest ++ l2) = ((segsSt b rest).bind fun m => segsSt m l2)
      exact ih l2 b
    | preOpen =>
      rw [List.cons_append]
      show (if b then none else segsSt true (rest ++ l2)) =
        ((if b then none else segsSt true rest).bind fun m => segsSt m l2)
      cases b with
      | false =>
        rw [if_neg (by simp), if_neg (by simp)]
        exact ih l2 true
      | true =>
        rw [if_pos rfl, if_pos rfl]
        rfl
    | preClose =>
      rw [List.cons_append]
      show (if b then segsSt false (rest ++ l2) else none) =
        ((if b then segsSt false rest else none).bind fun m => segsSt m l2)
      cases b with
      | false =>
        rw [if_neg (by simp), if_neg (by simp)]
        rfl
      | true =>
        rw [if_pos rfl, if_pos rfl]
        exact ih l2 false

/-- Segment decomposition of one transformed traceback entry, mirroring `telegramLine`. -/
def segsOfLine (stackFrame : String) : List Seg :=
  match splitFirstNl stackFrame with
  | (first, none) => [Seg.safe (escapeHtml (pyStrip first) ++ "\n")]
  | (first, some rest) =>
    if rest = "" then [Seg.safe (escapeHtml (pyStrip first) ++ "\n")]
    else [Seg.safe (escapeHtml (pyStrip first) ++ "\n"), Seg.preOpen,
          Seg.safe (escapeHtml (pyStrip rest)), Seg.preClose, Seg.safe "\n"]

/-- Segment decomposition of the joined traceback entries, mirroring `joinNl` over the mapped lines. -/
def segsOfJoin : List String → List Seg
  | [] => []
  | [f] => segsOfLine f
  | f :: rest => segsOfLine f ++ (Seg.safe "\n" :: segsOfJoin rest)

/-- Segment decomposition of the message header built by `buildTelegramText`. -/
def segsOfHeader (levelname appName message : String) : List Seg :=
  [Seg.bOpen, Seg.safe (escapeHtml levelname), Seg.bClose, Seg.safe " in ", Seg.bOpen,
   Seg.safe (escapeHtml appName), Seg.bClose, Seg.safe ": ", Seg.safe (escapeHtml message)]

/-- Segment decomposition of the full message built by `buildTelegramText`. -/
def segsOfTelegram (levelname appName message : String) (tbRaw : Option (List String)) : List Seg :=
  match tbRaw with
  | none => segsOfHeader levelname appName message
  | some lines => segsOfHeader levelname appName message ++
      (Seg.safe "\n\n" :: segsOfJoin ((lines.drop 1).reverse))

/-- The line decomposition flattens to the characters of the transformed line. -/
theorem flatten_segsOfLine (f : String) :
    flattenSegs (segsOfLine f) = (telegramLine f).data := by
  unfold segsOfLine telegramLine
  rcases hsp : splitFirstNl f with ⟨first, orest⟩
  cases orest with
  | none =>
    simp [flattenSegs, segChars, String.data_append]
  | some rest =>
    by_cases hr : rest = ""
    · simp [hr, flattenSegs, segChars, String.data_append]
    · simp [hr, flattenSegs, segChars, String.data_append, List.append_assoc]

/-- The join decomposition flattens to the characters of the joined mapped lines. -/
theorem flatten_segsOfJoin : ∀ fs : List String,
    flattenSegs (segsOfJoin fs) = (joinNl (fs.map telegramLine)).data := by
  intro fs
  induction fs with
  | nil => rfl
  | cons f rest ih =>
    cases rest with
    | nil =>
      show flattenSegs (segsOfLine f) = (joinNl [telegramLine f]).data
      rw [flatten_segsOfLine]
      rfl
    | cons g rest2 =>
      show flattenSegs (segsOfLine f ++ (Seg.safe "\n" :: segsOfJoin (g :: rest2))) = _
      rw [flattenSegs_append, flattenSegs_cons, flatten_segsOfLine, ih]
      show _ = (telegramLine f ++ "\n" ++ joinNl ((g :: rest2).map telegramLine)).data
      simp [segChars, String.data_append, List.append_assoc]

/-- The header decomposition flattens to the characters of the header. -/
theorem flatten_segsOfHeader (l a m : String) :
    flattenSegs (segsOfHeader l a m) =
      ("<b>" ++ escapeHtml l ++ "</b> in <b>" ++ escapeHtml a ++ "</b>: " ++ escapeHtml m).data := by
  simp [segsOfHeader, flattenSegs, segChars, String.data_append, List.append_assoc]

/-- The message decomposition flattens to the characters of the built message. -/
theorem flatten_segsOfTelegram (l a m : String) (tbRaw : Option (List String)) :
    flattenSegs (segsOfTelegram l a m tbRaw) = (buildTelegramText l a m tbRaw).data := by
  cases tbRaw with
  | none =>
    show flattenSegs (segsOfHeader l a m) = _
    rw [flatten_segsOfHeader]
    rfl
  | some lines =>
    show flattenSegs (segsOfHeader l a m ++ (Seg.safe "\n\n" :: segsOfJoin ((lines.drop 1).reverse))) = _
    rw [flattenSegs_append, flattenSegs_cons, flatten_segsOfHeader, flatten_segsOfJoin]
    show _ = (("<b>" ++ escapeHtml l ++ "</b> in <b>" ++ escapeHtml a ++ "</b>: " ++ escapeHtml m)
        ++ "\n\n" ++ joinNl (((lines.drop 1).reverse).map telegramLine)).data
    simp [segChars, String.data_append, List.append_assoc]

/-- The line decomposition is wellformed, starting and ending outside a pre block. -/
theorem segsSt_segsOfLine (f : String) : segsSt false (segsOfLine f) = some false := by
  unfold segsOfLine
  rcases hsp : splitFirstNl f with ⟨first, orest⟩
  cases orest with
  | none =>
    simp [segsSt, safe_line_no_lt (pyStrip first), escapeHtml_no_lt]
  | some rest =>
    by_cases hr : rest = ""
    · simp [hr, segsSt, safe_line_no_lt (pyStrip first), escapeHtml_no_lt]
    · simp [hr, segsSt, safe_line_no_lt (pyStrip first), escapeHtml_no_lt,
        show '<' ∉ "\n".data from by decide]

/-- The join decomposition is wellformed, starting and ending outside a pre block. -/
theorem segsSt_segsOfJoin : ∀ fs : List String, segsSt false (segsOfJoin fs) = some false := by
  intro fs
  induction fs with
  | nil => rfl
  | cons f rest ih =>
    cases rest with
    | nil => exact segsSt_segsOfLine f
    | cons g rest2 =>
      show segsSt false (segsOfLine f ++ (Seg.safe "\n" :: segsOfJoin (g :: rest2))) = some false
      rw [segsSt_append, segsSt_segsOfLine f]
      show (if '<' ∈ "\n".data then none else segsSt false (segsOfJoin (g :: rest2))) = some false
      rw [if_neg (by decide)]
      exact ih

/-- The header decomposition is wellformed, starting and ending outside a pre block. -/
theorem segsSt_segsOfHeader (l a m : String) :
    segsSt false (segsOfHeader l a m) = some false := by
  simp [segsOfHeader, segsSt, escapeHtml_no_lt,
    show '<' ∉ " in ".data from by decide, show '<' ∉ ": ".data from by decide]

/-- The message decomposition is wellformed, starting and ending outside a pre block. -/
theorem segsSt_segsOfTelegram (l a m : String) (tbRaw : Option (List String)) :
    segsSt false (segsOfTelegram l a m tbRaw) = some false := by
  cases tbRaw with
  | none => exact segsSt_segsOfHeader l a m
  | some lines =>
    show segsSt false (segsOfHeader l a m ++ (Seg.safe "\n\n" :: segsOfJoin ((lines.drop 1).reverse))) = some false
    rw [segsSt_append, segsSt_segsOfHeader]
    show (if '<' ∈ "\n\n".data then none else segsSt false (segsOfJoin ((lines.drop 1).reverse))) = some false
    rw [if_neg (by decide)]
    exact segsSt_segsOfJoin _

/-- C8: for every record, the message `TelegramHandler.emit` delivers is capped at 4096 characters, and the delivered text carries no unbalanced pre markup: its open and close tag counts agree, a closing tag having been appended when the open tags outnumbered the close tags (logger.py lines 356-360). -/
theorem c8_telegram_truncation_cap_and_balance (appName : String) (r : LogRecord) :
    (telegramTruncate (buildTelegramText r.levelname appName r.message r.tbRaw)).length ≤ 4096 ∧
    countSub (telegramTruncate (buildTelegramText r.levelname appName r.message r.tbRaw)) "<pre>" =
      countSub (telegramTruncate (buildTelegramText r.levelname appName r.message r.tbRaw)) "</pre>" := by
  have hW := segsSt_segsOfTelegram r.levelname appName r.message r.tbRaw
  have hF := flatten_segsOfTelegram r.levelname appName r.message r.tbRaw
  obtain ⟨text, hg⟩ : ∃ t, buildTelegramText r.levelname appName r.message r.tbRaw = t := ⟨_, rfl⟩
  rw [hg] at hF ⊢
  by_cases hlen : 4096 < text.length
  · have hres : telegramTruncate text =
        (if countSub (pyTake text 4089) "</pre>" < countSub (pyTake text 4089) "<pre>"
         then pyTake text 4089 ++ "</pre>" else pyTake text 4089) ++ "…" := by
      unfold telegramTruncate
      rw [if_pos hlen]
    rw [hres]
    have hP := segs_prefix_counts _ false false hW 4089
    rw [hF] at hP
    have hP1 : countPat "</pre>".data (text.data.take 4089) ≤
        countPat "<pre>".data (text.data.take 4089) := hP.1
    have hP2 : countPat "<pre>".data (text.data.take 4089) ≤
        countPat "</pre>".data (text.data.take 4089) + 1 := hP.2
    have hCo : countSub (pyTake text 4089) "<pre>" =
        countPat "<pre>".data (text.data.take 4089) := rfl
    have hCc : countSub (pyTake text 4089) "</pre>" =
        countPat "</pre>".data (text.data.take 4089) := rfl
    have hdlen : text.length = text.data.length := rfl
    have hpt : (pyTake text 4089).length = min 4089 text.data.length :=
      List.length_take _ _
    by_cases hcase : countSub (pyTake text 4089) "</pre>" < countSub (pyTake text 4089) "<pre>"
    · rw [if_pos hcase]
      rw [hCo, hCc] at hcase
      have hQ := segs_take_close_ellipsis _ false false hW 4089
      rw [hF] at hQ
      obtain ⟨hQ1, hQ2⟩ := hQ
      have hdata : ((pyTake text 4089 ++ "</pre>") ++ "…").data
          = text.data.take 4089 ++ "</pre>…".data := by
        rw [String.data_append, String.data_append, List.append_assoc]
        rfl
      constructor
      · rw [String.length_append, String.length_append, hpt]
        have hm : min 4089 text.data.length = 4089 := by omega
        rw [hm]
        decide
      · show countPat "<pre>".data (((pyTake text 4089 ++ "</pre>") ++ "…").data) =
          countPat "</pre>".data (((pyTake text 4089 ++ "</pre>") ++ "…").data)
        rw [hdata, hQ1, hQ2]
        omega
    · rw [if_neg hcase]
      rw [hCo, hCc] at hcase
      have hQ := segs_take_ellipsis _ false false hW 4089
      rw [hF] at hQ
      obtain ⟨hQ1, hQ2⟩ := hQ
      have hdata : ((pyTake text 4089) ++ "…").data
          = text.data.take 4089 ++ "…".data := by
        rw [String.data_append]
        rfl
      constructor
      · rw [String.length_append, hpt]
        have hm : min 4089 text.data.length = 4089 := by omega
        rw [hm]
        decide
      · show countPat "<pre>".data ((pyTake text 4089 ++ "…").data) =
          countPat "</pre>".data ((pyTake text 4089 ++ "…").data)
        rw [hdata, hQ1, hQ2]
        omega
  · have hres : telegramTruncate text = text := by
      unfold telegramTruncate
      rw [if_neg hlen]
    rw [hres]
    constructor
    · omega
    · have htot := segs_total_counts _ false hW
      rw [hF] at htot
      norm_num at htot
      exact htot
